import Mathlib

/-!
# Verification of the report archiving pipeline (`scripts/post_rename.py`)

This file gives a shallow embedding of the post-render archiving script of the
repository and proves properties of it.

The filesystem is modelled as an association list from paths (lists of name
components) to entries (files with string contents, or directory markers).
A directory exists either because an explicit directory marker is present
(created by `os.makedirs` / `shutil.copytree`) or implicitly because some
entry lives strictly below it.  The `shutil` / `os` primitives used by the
script are translated including their error behaviour; a failing operation
produces an error value carrying the state at the moment of failure, which
models a Python exception unwinding the script while leaving all completed
mutations on disk.

Paths appear in the script as strings joined by `os.path.join`; here a path is
the list of its components, so `"docs/report.html"` is `["docs",
"report.html"]`, and `os.path.basename` / `os.path.dirname` become `getLastD`
/ `dropLast`.  The newline-separated `QUARTO_PROJECT_OUTPUT_FILES` trigger
input is modelled as the list of the paths on its lines.
-/

abbrev Name := String
abbrev FPath := List Name

/-! ## String helpers mirroring the Python string operations -/

/-- `basename`: the final path component (`os.path.basename`); `""` for the
empty path, matching `os.path.basename("")`. -/
def basename (p : FPath) : Name := p.getLastD ""

/-- Split a list of characters at its last `'.'`, returning the part before
and the part from the dot on.  `none` when no dot occurs. -/
def splitAtLastDot : List Char → Option (List Char × List Char)
  | [] => none
  | c :: cs =>
    match splitAtLastDot cs with
    | some (a, b) => some (c :: a, b)
    | none => if c = '.' then some ([], '.' :: cs) else none

/-- `os.path.splitext` on a bare file name: split at the last dot, except that
a name whose characters before the last dot are all dots (such as `".html"`)
is not split. -/
def splitext (n : Name) : Name × Name :=
  match splitAtLastDot n.data with
  | some (stem, ext) =>
      if stem.all (· = '.') then (n, "") else (⟨stem⟩, ⟨ext⟩)
  | none => (n, "")

/-- Python `str.endswith`. -/
def pyEndsWith (s suffix : String) : Bool := suffix.data.isSuffixOf s.data

/-- Fuel-driven worker for `pyReplace` (structural recursion on the fuel so
that the function evaluates inside the kernel). -/
def pyReplaceAux (pat rep : List Char) : Nat → List Char → List Char
  | _, [] => []
  | 0, s => s
  | fuel + 1, c :: cs =>
    if pat ≠ [] ∧ pat.isPrefixOf (c :: cs) then
      rep ++ pyReplaceAux pat rep fuel ((c :: cs).drop pat.length)
    else
      c :: pyReplaceAux pat rep fuel cs

/-- Python `str.replace`: replace every non-overlapping occurrence of `pat`,
scanning left to right. -/
def pyReplace (s pat rep : String) : String :=
  if pat = "" then s else ⟨pyReplaceAux pat.data rep.data s.data.length s.data⟩

/-- Python `"\n".join`. -/
def joinNL : List String → String
  | [] => ""
  | [x] => x
  | x :: xs => x ++ "\n" ++ joinNL xs

/-! ## The filesystem model -/

/-- A filesystem entry: a regular file with contents, or a directory marker. -/
inductive Entry where
  | file (content : String)
  | dir
deriving DecidableEq, Repr

/-- A filesystem: an association list from paths to entries.  Lookups take the
first match. -/
structure FS where
  entries : List (FPath × Entry)
deriving DecidableEq, Repr

/-- Errors raised by the modelled `os` / `shutil` primitives. -/
inductive Err where
  | fileNotFound (p : FPath)
  | fileExists (p : FPath)
  | notADir (p : FPath)
  | isADir (p : FPath)
deriving DecidableEq, Repr

/-- Result of a run: success, or an uncaught exception together with the
filesystem state at the moment it was raised. -/
inductive Res where
  | ok (fs : FS)
  | err (e : Err) (fs : FS)
deriving DecidableEq, Repr

/-- Sequencing: an exception aborts the rest of the script. -/
def Res.bind : Res → (FS → Res) → Res
  | .ok fs, f => f fs
  | .err e fs, _ => .err e fs

/-- The filesystem state contained in a result (on-disk state also when an
exception was raised). -/
def Res.stateOf : Res → FS
  | .ok fs => fs
  | .err _ fs => fs

def Res.isOk : Res → Bool
  | .ok _ => true
  | .err _ _ => false

namespace FS

/-- First-match lookup of a path. -/
def lookup (fs : FS) (p : FPath) : Option Entry :=
  (fs.entries.find? (fun e => decide (e.1 = p))).map (·.2)

/-- `os.path.isfile`. -/
def isfile (fs : FS) (p : FPath) : Bool :=
  match fs.lookup p with
  | some (.file _) => true
  | _ => false

/-- `os.path.isdir`: an explicit directory marker, or some entry strictly
below `p`. -/
def isdir (fs : FS) (p : FPath) : Bool :=
  (match fs.lookup p with
   | some .dir => true
   | _ => false) ||
  fs.entries.any (fun e => decide (p ≠ e.1) && decide (p <+: e.1))

/-- `os.path.exists`. -/
def pathExists (fs : FS) (p : FPath) : Bool := fs.isfile p || fs.isdir p

/-- Remove the entry at exactly `p` (no effect on descendants). -/
def removeFile (fs : FS) (p : FPath) : FS :=
  ⟨fs.entries.filter (fun e => decide (e.1 ≠ p))⟩

/-- Remove `p` and everything below it. -/
def removeTree (fs : FS) (p : FPath) : FS :=
  ⟨fs.entries.filter (fun e => decide (¬ p <+: e.1))⟩

/-- Does the parent directory of `p` exist (paths of length one live in the
working directory, which always exists)? -/
def parentOk (fs : FS) (p : FPath) : Bool :=
  decide (p.dropLast = []) || fs.isdir p.dropLast

/-- `open(p, "w")` followed by writing `c`: fails on a directory or when the
parent directory is missing, otherwise replaces the entry at `p`. -/
def writeFile (fs : FS) (p : FPath) (c : String) : Res :=
  if fs.isdir p then .err (.isADir p) fs
  else if ¬ fs.parentOk p then .err (.fileNotFound p) fs
  else .ok ⟨(p, .file c) :: (fs.removeFile p).entries⟩

/-- `shutil.copyfile`: read the source file, then write the destination. -/
def copyfile (fs : FS) (src dst : FPath) : Res :=
  match fs.lookup src with
  | some (.file c) => fs.writeFile dst c
  | some .dir => .err (.isADir src) fs
  | none => if fs.isdir src then .err (.isADir src) fs
            else .err (.fileNotFound src) fs

/-- `shutil.copy` / `shutil.copy2`: copying onto an existing directory places
the file inside it under the source's base name. -/
def copy (fs : FS) (src dst : FPath) : Res :=
  let d := if fs.isdir dst then dst ++ [basename src] else dst
  fs.copyfile src d

/-- `os.rename` within one filesystem: every entry at or below `src` is
re-rooted at `dst`; an existing regular file at `dst` is replaced. -/
def rename (fs : FS) (src dst : FPath) : FS :=
  ⟨(fs.entries.filterMap (fun e =>
      if decide (src <+: e.1) then some (dst ++ e.1.drop src.length, e.2) else none))
   ++ ((fs.removeFile dst).entries.filter (fun e => decide (¬ src <+: e.1)))⟩

/-- `shutil.move` (same-filesystem case): moving onto an existing directory
moves the source *inside* that directory under its base name, failing if that
occupied; otherwise it is a rename, which cannot put a directory on top of an
existing regular file. -/
def move (fs : FS) (src dst : FPath) : Res :=
  if ¬ fs.pathExists src then .err (.fileNotFound src) fs
  else if fs.isdir dst then
    if fs.pathExists (dst ++ [basename src]) then
      .err (.fileExists (dst ++ [basename src])) fs
    else .ok (fs.rename src (dst ++ [basename src]))
  else if fs.isfile dst && fs.isdir src then .err (.notADir dst) fs
  else if ¬ fs.parentOk dst then .err (.fileNotFound dst) fs
  else .ok (fs.rename src dst)

/-- `os.makedirs(p, exist_ok=True)`: fails when `p` is a regular file,
otherwise ensures a directory at `p`. -/
def makedirs (fs : FS) (p : FPath) : Res :=
  if fs.isfile p then .err (.fileExists p) fs
  else if fs.isdir p then .ok fs
  else .ok ⟨(p, .dir) :: fs.entries⟩

/-- The immediate children names of a directory (deduplicated; `os.listdir`
returns each name once, in unspecified order — the model uses a canonical
order, which no consumer in the script depends on). -/
def childNames (fs : FS) (p : FPath) : List Name :=
  (fs.entries.filterMap (fun e =>
    if decide (p <+: e.1) && decide (e.1 ≠ p) then (e.1.drop p.length).head? else none)).dedup

/-- `os.listdir`. -/
def listdir (fs : FS) (p : FPath) : Except Err (List Name) :=
  if fs.isdir p then .ok (fs.childNames p)
  else if fs.pathExists p then .error (.notADir p)
  else .error (.fileNotFound p)

/-- `shutil.rmtree`. -/
def rmtree (fs : FS) (p : FPath) : Res :=
  if fs.isdir p then .ok (fs.removeTree p)
  else if fs.pathExists p then .err (.notADir p) fs
  else .err (.fileNotFound p) fs

/-- `shutil.copytree` (default `dirs_exist_ok=False`): the destination must
not exist; every entry strictly below `src` is duplicated below `dst`, and a
directory marker is placed at `dst` itself. -/
def copytree (fs : FS) (src dst : FPath) : Res :=
  if ¬ fs.isdir src then .err (.fileNotFound src) fs
  else if fs.pathExists dst then .err (.fileExists dst) fs
  else .ok ⟨(dst, .dir) ::
    (fs.entries.filterMap (fun e =>
      if decide (src <+: e.1) && decide (e.1 ≠ src) then
        some (dst ++ e.1.drop src.length, e.2)
      else none))
    ++ fs.entries⟩

end FS

/-! ## The archive index builder (`update_archive_qmd`) -/

/-- The store's `.html` listing read by `update_archive_qmd`: the directory
listing of `archived_reports` filtered to names ending in `.html`; a missing
store directory is caught (`except FileNotFoundError`) and treated as an
empty listing. -/
def htmlListing (fs : FS) : List Name :=
  if fs.isdir ["archived_reports"] then
    (fs.childNames ["archived_reports"]).filter (fun n => pyEndsWith n ".html")
  else []

/-- Code-point lexicographic `<` on character lists, as Python compares
strings. -/
def lexLt : List Char → List Char → Bool
  | [], [] => false
  | [], _ :: _ => true
  | _ :: _, [] => false
  | a :: as, b :: bs =>
    if a.toNat < b.toNat then true
    else if b.toNat < a.toNat then false
    else lexLt as bs

/-- Python `<` on strings (code-point lexicographic). -/
def pyLt (a b : String) : Bool := lexLt a.data b.data

/-- The descending comparator realised by `sort(reverse=True)`: `a` precedes
`b` when `a` is not smaller than `b`. -/
def pyGe (a b : String) : Bool := ! pyLt a b

/-- `files.sort(reverse=True)`: descending lexicographic sort. -/
def pysortDesc (l : List Name) : List Name :=
  List.insertionSort (fun a b : Name => pyGe a b = true) l

/-- The sorted entry list the generated index is rendered from. -/
def indexEntries (fs : FS) : List Name := pysortDesc (htmlListing fs)

/-- One bullet of the generated index:
`- [{f.replace('.html', '')}]({f})`. -/
def indexLine (f : Name) : String :=
  "- [" ++ pyReplace f ".html" "" ++ "](" ++ f ++ ")"

/-- The full text written to `archive/index.qmd`, including the re-emitted
front matter. -/
def indexContent (files : List Name) : String :=
  let sorted := pysortDesc files
  let list_md :=
    if sorted.isEmpty then "No archived reports yet."
    else joinNL (sorted.map indexLine)
  "---\ntitle: Archive\n---\n\n# Past Reports\n\n" ++ list_md ++ "\n"

/-- `update_archive_qmd(qmd_file_path)`: list the persistent archive (a
missing directory is caught and yields an empty listing; a non-directory at
that path raises), then overwrite the index document. -/
def update_archive_qmd (qmd_file_path : FPath) (fs : FS) : Res :=
  if fs.isdir ["archived_reports"] ∨ ¬ fs.pathExists ["archived_reports"] then
    fs.writeFile qmd_file_path (indexContent (htmlListing fs))
  else .err (.notADir ["archived_reports"]) fs

/-! ## The main script (`post_rename.py`, module level) -/

/-- STEPS 2–3: rename the primary file, then — if a companion resource
directory was detected *before* that rename — rename the resource directory.
The detection flag is read from the pre-rename state `fs`, exactly as the
script computes `has_resources` before `shutil.move`. -/
def renamePhase (today : String) (f : FPath) (fs : FS) : Res :=
  let be := splitext (basename f)
  let dirn := f.dropLast
  let new_base := be.1 ++ "_" ++ today
  let new_name := dirn ++ [new_base ++ be.2]
  let res_dir := dirn ++ [be.1 ++ "_files"]
  let new_res := dirn ++ [new_base ++ "_files"]
  (fs.move f new_name).bind fun s1 =>
    if fs.isdir res_dir then s1.move res_dir new_res else .ok s1

/-- STEPS 2–4: the renames followed by the stable `report-latest.html` copy. -/
def preCommitPhase (today : String) (f : FPath) (fs : FS) : Res :=
  let be := splitext (basename f)
  let dirn := f.dropLast
  let new_base := be.1 ++ "_" ++ today
  let new_name := dirn ++ [new_base ++ be.2]
  let stable := dirn ++ [be.1 ++ "-latest" ++ be.2]
  (renamePhase today f fs).bind fun s => s.copyfile new_name stable

/-- STEP 5: commit the versioned primary file into the persistent archive
store (`os.makedirs(..., exist_ok=True)` then `shutil.copy`). -/
def stepCommit (new_name : FPath) (fs : FS) : Res :=
  (fs.makedirs ["archived_reports"]).bind fun s =>
    s.copy new_name ["archived_reports", basename new_name]

/-- STEP 6: refresh the shared charts directory in the store
(delete-then-copy). -/
def stepCharts (fs : FS) : Res :=
  if fs.isdir ["docs", "charts"] then
    (if fs.pathExists ["archived_reports", "charts"] then
       fs.rmtree ["archived_reports", "charts"]
     else .ok fs).bind fun s =>
      s.copytree ["docs", "charts"] ["archived_reports", "charts"]
  else .ok fs

/-- STEP 7: refresh the shared `site_libs` directory in the store
(delete-then-copy). -/
def stepSiteLibs (fs : FS) : Res :=
  if fs.isdir ["docs", "site_libs"] then
    (if fs.pathExists ["archived_reports", "site_libs"] then
       fs.rmtree ["archived_reports", "site_libs"]
     else .ok fs).bind fun s =>
      s.copytree ["docs", "site_libs"] ["archived_reports", "site_libs"]
  else .ok fs

/-- STEP 8: commit the renamed resource directory into the store, removing a
pre-existing directory of the same versioned name first. -/
def stepResources (new_res_dir : Option FPath) (fs : FS) : Res :=
  match new_res_dir with
  | some nrd =>
    if fs.isdir nrd then
      (if fs.pathExists ["archived_reports", basename nrd] then
         fs.rmtree ["archived_reports", basename nrd]
       else .ok fs).bind fun s =>
        s.copytree nrd ["archived_reports", basename nrd]
    else .ok fs
  | none => .ok fs

/-- STEP 9: archive the source document `report.qmd` under the versioned
name. -/
def stepQmd (today : String) (fs : FS) : Res :=
  (fs.makedirs ["archive_qmd"]).bind fun s =>
    s.copyfile ["report.qmd"] ["archive_qmd", "report_" ++ today ++ ".qmd"]

/-- STEP 10: regenerate `archive/index.qmd`. -/
def stepIndex (fs : FS) : Res :=
  update_archive_qmd ["archive", "index.qmd"] fs

/-- One iteration of the STEP 11 deployment loop. -/
def publishItem (item : Name) (fs : FS) : Res :=
  let src : FPath := ["archived_reports", item]
  let dst : FPath := ["docs", "archive", item]
  if fs.isfile src then fs.copy src dst
  else if fs.isdir src then
    (if fs.pathExists dst then fs.rmtree dst else .ok fs).bind fun s =>
      s.copytree src dst
  else .ok fs

def publishItems : List Name → FS → Res
  | [], fs => .ok fs
  | i :: is, fs => (publishItem i fs).bind (publishItems is)

/-- STEP 11: mirror the persistent archive store into `docs/archive`. -/
def stepPublish (fs : FS) : Res :=
  (fs.makedirs ["docs", "archive"]).bind fun s =>
    if s.pathExists ["archived_reports"] then
      match s.listdir ["archived_reports"] with
      | .ok items => publishItems items s
      | .error e => .err e s
    else .ok s

/-- The resource directory parameter STEP 8 receives: `new_res_dir` is set
during STEP 3 iff `has_resources` was detected before the renames. -/
def newResDirOf (today : String) (f : FPath) (fs : FS) : Option FPath :=
  let be := splitext (basename f)
  let dirn := f.dropLast
  if fs.isdir (dirn ++ [be.1 ++ "_files"]) then
    some (dirn ++ [be.1 ++ "_" ++ today ++ "_files"])
  else none

/-- STEPS 2–8: everything before the `report.qmd` source archive. -/
def preQmdPhase (today : String) (f : FPath) (fs : FS) : Res :=
  let be := splitext (basename f)
  let dirn := f.dropLast
  let new_name := dirn ++ [be.1 ++ "_" ++ today ++ be.2]
  (preCommitPhase today f fs).bind fun s =>
    (stepCommit new_name s).bind fun s =>
      (stepCharts s).bind fun s =>
        (stepSiteLibs s).bind fun s =>
          stepResources (newResDirOf today f fs) s

/-- Processing of one path from the trigger list: skip it if it no longer
exists, skip anything that is not the watched `report` + `.html` artifact,
otherwise run STEPS 1–11. -/
def processFile (today : String) (f : FPath) (fs : FS) : Res :=
  if ¬ fs.pathExists f then .ok fs
  else
    let be := splitext (basename f)
    if ¬ (be.1 = "report" ∧ be.2 = ".html") then .ok fs
    else
      (preQmdPhase today f fs).bind fun s =>
        (stepQmd today s).bind fun s =>
          (stepIndex s).bind fun s =>
            stepPublish s

/-- The whole script: fold the processing over the trigger list; an empty
list exits cleanly at once, and an exception aborts the remaining files. -/
def run (today : String) (files : List FPath) (fs : FS) : Res :=
  match files with
  | [] => .ok fs
  | f :: rest => (processFile today f fs).bind fun s => run today rest s

/-! ## Helper lemmas: lookups over the association list -/

theorem FS.lookup_mk_cons (p : FPath) (e : Entry) (l : List (FPath × Entry))
    (q : FPath) :
    FS.lookup ⟨(p, e) :: l⟩ q = if p = q then some e else FS.lookup ⟨l⟩ q := by
  simp only [FS.lookup, List.find?_cons]
  by_cases h : p = q <;> simp [h]

theorem FS.lookup_append (l₁ l₂ : List (FPath × Entry)) (q : FPath) :
    FS.lookup ⟨l₁ ++ l₂⟩ q =
      (FS.lookup ⟨l₁⟩ q).orElse (fun _ => FS.lookup ⟨l₂⟩ q) := by
  induction l₁ with
  | nil => simp [FS.lookup]
  | cons a l ih =>
    rcases a with ⟨p, e⟩
    simp only [List.cons_append, FS.lookup_mk_cons, ih]
    by_cases h : p = q <;> simp [h]

theorem FS.lookup_filter_key (l : List (FPath × Entry)) (P : FPath → Bool)
    (q : FPath) :
    FS.lookup ⟨l.filter (fun e => P e.1)⟩ q =
      if P q then FS.lookup ⟨l⟩ q else none := by
  induction l with
  | nil => by_cases h : P q <;> simp [FS.lookup, h]
  | cons a l ih =>
    rcases a with ⟨p, e⟩
    by_cases hp : P p
    · simp only [List.filter_cons, hp, if_pos, FS.lookup_mk_cons, ih]
      by_cases h : p = q
      · subst h; simp [hp]
      · simp [h]
    · simp only [List.filter_cons, hp]
      rw [if_neg (by simp [hp]), ih, FS.lookup_mk_cons]
      by_cases h : p = q
      · subst h; simp [hp]
      · simp [h]

theorem FS.lookup_removeFile (fs : FS) (p q : FPath) :
    (fs.removeFile p).lookup q = if q = p then none else fs.lookup q := by
  have := FS.lookup_filter_key fs.entries (fun x => decide (x ≠ p)) q
  simp only [FS.removeFile]
  rw [show (fun e : FPath × Entry => decide (e.1 ≠ p)) =
      (fun e : FPath × Entry => (fun x => decide (x ≠ p)) e.1) from rfl, this]
  by_cases h : q = p <;> simp [h]

theorem FS.lookup_removeTree (fs : FS) (p q : FPath) :
    (fs.removeTree p).lookup q = if p <+: q then none else fs.lookup q := by
  have := FS.lookup_filter_key fs.entries (fun x => decide (¬ p <+: x)) q
  simp only [FS.removeTree]
  rw [show (fun e : FPath × Entry => decide (¬ p <+: e.1)) =
      (fun e : FPath × Entry => (fun x => decide (¬ p <+: x)) e.1) from rfl, this]
  by_cases h : p <+: q <;> simp [h]

theorem FS.lookup_renameMap (l : List (FPath × Entry)) (src dst : FPath)
    (t : FPath) :
    FS.lookup ⟨l.filterMap (fun e =>
        if decide (src <+: e.1) then some (dst ++ e.1.drop src.length, e.2)
        else none)⟩ (dst ++ t)
      = FS.lookup ⟨l⟩ (src ++ t) := by
  induction l with
  | nil => rfl
  | cons a l ih =>
    rcases a with ⟨p, e⟩
    by_cases hp : src <+: p
    · obtain ⟨r, hr⟩ := hp
      subst hr
      simp only [List.filterMap_cons]
      rw [if_pos (by simp [List.prefix_append])]
      simp only [List.drop_left]
      rw [FS.lookup_mk_cons, FS.lookup_mk_cons]
      by_cases h : r = t
      · subst h; simp
      · rw [if_neg (by simp [h]), if_neg (by simp [h]), ih]
    · simp only [List.filterMap_cons]
      rw [if_neg (by simpa using hp), FS.lookup_mk_cons]
      rw [if_neg (by rintro rfl; exact hp (List.prefix_append _ _)), ih]

theorem FS.lookup_renameMap_notPrefix (l : List (FPath × Entry))
    (src dst : FPath) (q : FPath) (h : ¬ dst <+: q) :
    FS.lookup ⟨l.filterMap (fun e =>
        if decide (src <+: e.1) then some (dst ++ e.1.drop src.length, e.2)
        else none)⟩ q = none := by
  induction l with
  | nil => rfl
  | cons a l ih =>
    rcases a with ⟨p, e⟩
    by_cases hp : src <+: p
    · simp only [List.filterMap_cons]
      rw [if_pos (by simpa using hp), FS.lookup_mk_cons]
      rw [if_neg (by rintro rfl; exact h (List.prefix_append _ _)), ih]
    · simp only [List.filterMap_cons]
      rw [if_neg (by simpa using hp), ih]

/-- A successful lookup comes from an entry of the list. -/
theorem FS.lookup_mem {fs : FS} {q : FPath} {e : Entry}
    (h : fs.lookup q = some e) : (q, e) ∈ fs.entries := by
  simp only [FS.lookup, Option.map_eq_some'] at h
  obtain ⟨⟨p, e'⟩, hfind, he⟩ := h
  have hmem := List.mem_of_find?_eq_some hfind
  have hp := List.find?_some hfind
  simp only [decide_eq_true_eq] at hp
  cases hp; cases he; exact hmem

/-- Entries at or below `src` reappear, rekeyed, at `dst`. -/
theorem FS.lookup_rename_moved (fs : FS) (src dst : FPath) (t : FPath)
    (e : Entry) (h : fs.lookup (src ++ t) = some e) :
    (fs.rename src dst).lookup (dst ++ t) = some e := by
  simp only [FS.rename]
  rw [FS.lookup_append, FS.lookup_renameMap, h]
  rfl

/-- A rename does not touch paths outside the source and destination
subtrees. -/
theorem FS.lookup_rename_untouched (fs : FS) (src dst : FPath) (q : FPath)
    (h1 : ¬ src <+: q) (h2 : ¬ dst <+: q) :
    (fs.rename src dst).lookup q = fs.lookup q := by
  simp only [FS.rename]
  rw [FS.lookup_append, FS.lookup_renameMap_notPrefix _ _ _ _ h2]
  have := FS.lookup_filter_key (fs.removeFile dst).entries
      (fun x => decide (¬ src <+: x)) q
  simp only [Option.orElse]
  rw [show (fun e : FPath × Entry => decide (¬ src <+: e.1)) =
      (fun e : FPath × Entry => (fun x => decide (¬ src <+: x)) e.1) from rfl,
    this, if_pos (by simpa using h1), FS.lookup_removeFile,
    if_neg (by rintro rfl; exact h2 List.prefix_rfl)]

/-- After a rename into a previously empty destination subtree, the lookup at
`dst ++ t` is exactly the old lookup at `src ++ t`. -/
theorem FS.lookup_rename_fresh (fs : FS) (src dst : FPath) (t : FPath)
    (h : ∀ x ∈ fs.entries, ¬ dst <+: x.1) :
    (fs.rename src dst).lookup (dst ++ t) = fs.lookup (src ++ t) := by
  simp only [FS.rename]
  rw [FS.lookup_append, FS.lookup_renameMap]
  cases hsrc : FS.lookup ⟨fs.entries⟩ (src ++ t) with
  | some e => rfl
  | none =>
    simp only [Option.orElse]
    have := FS.lookup_filter_key (fs.removeFile dst).entries
        (fun x => decide (¬ src <+: x)) (dst ++ t)
    rw [show (fun e : FPath × Entry => decide (¬ src <+: e.1)) =
        (fun e : FPath × Entry => (fun x => decide (¬ src <+: x)) e.1) from rfl,
      this]
    by_cases hs : src <+: dst ++ t
    · simp [hs]
    · rw [if_pos (by simpa using hs), FS.lookup_removeFile]
      by_cases hd : dst ++ t = dst
      · simp [hd]
      · rw [if_neg hd]
        cases hq : fs.lookup (dst ++ t) with
        | none => rfl
        | some e' =>
          exact absurd (List.prefix_append dst t) (h _ (FS.lookup_mem hq))

theorem FS.isfile_iff {fs : FS} {p : FPath} :
    fs.isfile p = true ↔ ∃ c, fs.lookup p = some (.file c) := by
  unfold FS.isfile
  cases h : fs.lookup p with
  | none => simp
  | some e => cases e <;> simp

theorem FS.isdir_iff {fs : FS} {p : FPath} :
    fs.isdir p = true ↔
      (fs.lookup p = some .dir ∨ ∃ x ∈ fs.entries, p ≠ x.1 ∧ p <+: x.1) := by
  unfold FS.isdir
  rw [Bool.or_eq_true, List.any_eq_true]
  constructor
  · rintro (h | ⟨x, hx, hcond⟩)
    · left
      cases hl : fs.lookup p with
      | none => rw [hl] at h; cases h
      | some e => cases e <;> rw [hl] at h <;> simp_all
    · right
      refine ⟨x, hx, ?_⟩
      simpa using hcond
  · rintro (h | ⟨x, hx, h1, h2⟩)
    · left; rw [h]
    · right; exact ⟨x, hx, by simp [h1, h2]⟩

theorem FS.pathExists_false_iff {fs : FS} {p : FPath} :
    fs.pathExists p = false ↔ fs.isfile p = false ∧ fs.isdir p = false := by
  unfold FS.pathExists
  cases fs.isfile p <;> cases fs.isdir p <;> simp

/-- A path that is the key of some entry has a successful lookup (possibly of
a different, earlier entry). -/
theorem FS.lookup_isSome_of_mem {fs : FS} {x : FPath × Entry}
    (hx : x ∈ fs.entries) : ∃ e, fs.lookup x.1 = some e := by
  unfold FS.lookup
  cases hf : fs.entries.find? (fun e => decide (e.1 = x.1)) with
  | some y => exact ⟨y.2, rfl⟩
  | none =>
    exfalso
    have := List.find?_eq_none.mp hf x hx
    simp at this

/-- An existing entry at `p` makes `p` exist as a path. -/
theorem FS.exists_of_mem {fs : FS} {x : FPath × Entry}
    (hx : x ∈ fs.entries) : fs.pathExists x.1 = true := by
  obtain ⟨e, he⟩ := FS.lookup_isSome_of_mem hx
  unfold FS.pathExists
  cases e with
  | file c =>
    have : fs.isfile x.1 = true := FS.isfile_iff.mpr ⟨c, he⟩
    simp [this]
  | dir =>
    have : fs.isdir x.1 = true := FS.isdir_iff.mpr (Or.inl he)
    simp [this]

/-- A non-existing path has no entry at or below it. -/
theorem FS.not_below_of_not_exists {fs : FS} {p : FPath}
    (h : fs.pathExists p = false) :
    ∀ x ∈ fs.entries, ¬ p <+: x.1 := by
  intro x hx hpre
  by_cases he : p = x.1
  · subst he
    rw [FS.exists_of_mem hx] at h; cases h
  · obtain ⟨hf, hd⟩ := FS.pathExists_false_iff.mp h
    have : fs.isdir p = true := by
      rw [FS.isdir_iff]; right; exact ⟨x, hx, he, hpre⟩
    simp_all

/-! ## Helper lemmas: name (string component) disequalities -/

theorem sdata_append (a b : String) : (a ++ b).data = a.data ++ b.data := rfl

theorem string_eq_iff_data {a b : String} : a = b ↔ a.data = b.data :=
  ⟨fun h => h ▸ rfl, fun h => by cases a; cases b; exact congrArg String.mk h⟩

/-- Two suffixes of the same list with equal lengths coincide. -/
theorem suffix_eq_of_length {α : Type} {l₁ l₂ n : List α}
    (h₁ : l₁ <:+ n) (h₂ : l₂ <:+ n) (h : l₁.length = l₂.length) : l₁ = l₂ := by
  obtain ⟨a, rfl⟩ := h₁
  obtain ⟨b, hb⟩ := h₂
  exact (List.append_inj_right' hb h.symm).symm

theorem pyEndsWith_iff {s suffix : String} :
    pyEndsWith s suffix = true ↔ suffix.data <:+ s.data := by
  simp [pyEndsWith]

/-- Any name of the shape `"report" ++ r` differs from `"archived_reports"`. -/
theorem report_ne_archived (r : String) : "report" ++ r ≠ "archived_reports" := by
  intro h
  have h2 : ("report" ++ r).data.head? = "archived_reports".data.head? := by rw [h]
  have h3 : (some 'r' : Option Char) = some 'a' := h2
  simp at h3

theorem report_ts_ne (t x y : String)
    (hne : x ≠ y) : "report_" ++ t ++ x ≠ "report_" ++ t ++ y := by
  intro h
  rw [string_eq_iff_data, sdata_append, sdata_append] at h
  exact hne (string_eq_iff_data.mpr (List.append_cancel_left h))

/-- `"report_" ++ t ++ ".html"` never equals `"report_files"`: the first ends
in `".html"`, the second in `"files"`. -/
theorem report_vhtml_ne_files (t : String) :
    "report_" ++ t ++ ".html" ≠ "report_files" := by
  intro h
  rw [string_eq_iff_data, sdata_append] at h
  have h₁ : ".html".data <:+ "report_files".data := h ▸ ⟨_, rfl⟩
  have h₂ : "files".data <:+ "report_files".data := ⟨"report_".data, rfl⟩
  have := suffix_eq_of_length h₁ h₂ (by decide)
  simp at this

/-- `"report_" ++ t ++ "_files"` never equals `"report_files"`: lengths. -/
theorem report_vfiles_ne_files (t : String) :
    "report_" ++ t ++ "_files" ≠ "report_files" := by
  intro h
  rw [string_eq_iff_data, sdata_append, sdata_append] at h
  have := congrArg List.length h
  simp [List.length_append] at this

/-- A name ending in `".html"` never equals one ending in `"_files"`. -/
theorem html_ne_suffix_files {n m : String} (hn : pyEndsWith n ".html" = true)
    (hm : "_files".data <:+ m.data) : n ≠ m := by
  intro h
  subst h
  have h₁ := pyEndsWith_iff.mp hn
  have h₂ : "files".data <:+ n.data :=
    List.IsSuffix.trans ⟨"_".data, rfl⟩ hm
  have := suffix_eq_of_length h₁ h₂ (by decide)
  simp at this

theorem html_ne_charts {n : String} (hn : pyEndsWith n ".html" = true) :
    n ≠ "charts" := by
  rintro rfl; exact absurd hn (by decide)

theorem html_ne_site_libs {n : String} (hn : pyEndsWith n ".html" = true) :
    n ≠ "site_libs" := by
  rintro rfl; exact absurd hn (by decide)

theorem html_ne_report_t_files {n : String} (hn : pyEndsWith n ".html" = true)
    (t : String) : n ≠ "report_" ++ t ++ "_files" :=
  html_ne_suffix_files hn (by
    rw [sdata_append]; exact ⟨("report_" ++ t).data, rfl⟩)

theorem report_vhtml_endsWith (t : String) :
    pyEndsWith ("report_" ++ t ++ ".html") ".html" = true := by
  rw [pyEndsWith_iff, sdata_append]
  exact ⟨("report_" ++ t).data, rfl⟩

/-! ## Helper lemmas: effect of each primitive on lookups -/

theorem FS.lookup_filterMap_none {l : List (FPath × Entry)}
    (g : FPath × Entry → Option (FPath × Entry)) {q : FPath}
    (hg : ∀ e x, g e = some x → x.1 ≠ q) :
    FS.lookup ⟨l.filterMap g⟩ q = none := by
  induction l with
  | nil => rfl
  | cons a l ih =>
    simp only [List.filterMap_cons]
    cases hga : g a with
    | none => exact ih
    | some x =>
      rw [FS.lookup_mk_cons, if_neg (hg a x hga), ih]

theorem FS.lookup_writeFile_stateOf (fs : FS) (p : FPath) (c : String)
    (q : FPath) (h : p ≠ q) :
    ((fs.writeFile p c).stateOf).lookup q = fs.lookup q := by
  unfold FS.writeFile
  split
  · rfl
  · split
    · rfl
    · simp only [Res.stateOf]
      rw [FS.lookup_mk_cons, if_neg h, FS.lookup_removeFile,
        if_neg (fun hq => h hq.symm)]

theorem FS.lookup_copyfile_stateOf (fs : FS) (src dst : FPath)
    (q : FPath) (h : dst ≠ q) :
    ((fs.copyfile src dst).stateOf).lookup q = fs.lookup q := by
  unfold FS.copyfile
  split
  · exact FS.lookup_writeFile_stateOf _ _ _ _ h
  · rfl
  · split <;> rfl

theorem FS.lookup_copy_stateOf (fs : FS) (src dst : FPath)
    (q : FPath) (h : ¬ dst <+: q) :
    ((fs.copy src dst).stateOf).lookup q = fs.lookup q := by
  unfold FS.copy
  by_cases hd : fs.isdir dst
  · simp only [hd, if_true]
    exact FS.lookup_copyfile_stateOf _ _ _ _
      (fun hq => h (hq ▸ List.prefix_append dst _))
  · simp only [hd, if_false]
    exact FS.lookup_copyfile_stateOf _ _ _ _
      (fun hq => h (hq ▸ List.prefix_rfl))

theorem FS.lookup_makedirs_stateOf (fs : FS) (p : FPath)
    (q : FPath) (h : p ≠ q) :
    ((fs.makedirs p).stateOf).lookup q = fs.lookup q := by
  unfold FS.makedirs
  split
  · rfl
  · split
    · rfl
    · simp only [Res.stateOf]
      rw [FS.lookup_mk_cons, if_neg h]

theorem FS.lookup_rmtree_stateOf (fs : FS) (p : FPath)
    (q : FPath) (h : ¬ p <+: q) :
    ((fs.rmtree p).stateOf).lookup q = fs.lookup q := by
  unfold FS.rmtree
  split
  · simp only [Res.stateOf]
    rw [FS.lookup_removeTree, if_neg h]
  · split <;> rfl

theorem FS.lookup_copytree_stateOf (fs : FS) (src dst : FPath)
    (q : FPath) (h : ¬ dst <+: q) :
    ((fs.copytree src dst).stateOf).lookup q = fs.lookup q := by
  unfold FS.copytree
  split
  · rfl
  · split
    · rfl
    · simp only [Res.stateOf, List.cons_append]
      rw [FS.lookup_mk_cons,
        if_neg (fun (hq : dst = q) => h (hq ▸ (List.prefix_rfl : dst <+: dst))),
        FS.lookup_append,
        FS.lookup_filterMap_none
          (fun e => if decide (src <+: e.1) && decide (e.1 ≠ src) then
            some (dst ++ e.1.drop src.length, e.2) else none)
          (by
            intro e x hx
            simp only [] at hx
            split at hx
            · cases hx
              exact fun hq => h (hq ▸ List.prefix_append dst _)
            · cases hx)]
      rfl

/-! Preservation of "is a regular file" (overwrites keep files files). -/

theorem FS.isfile_writeFile_pres (fs : FS) (p : FPath) (c : String)
    (P : FPath) (h : fs.isfile P = true) :
    ((fs.writeFile p c).stateOf).isfile P = true := by
  by_cases hp : p = P
  · subst hp
    unfold FS.writeFile
    split
    · exact h
    · split
      · exact h
      · simp only [Res.stateOf]
        rw [FS.isfile_iff]
        exact ⟨c, by rw [FS.lookup_mk_cons, if_pos rfl]⟩
  · rw [FS.isfile_iff] at h ⊢
    obtain ⟨c', hc⟩ := h
    exact ⟨c', by rw [FS.lookup_writeFile_stateOf _ _ _ _ hp]; exact hc⟩

theorem FS.isfile_copyfile_pres (fs : FS) (src dst : FPath)
    (P : FPath) (h : fs.isfile P = true) :
    ((fs.copyfile src dst).stateOf).isfile P = true := by
  unfold FS.copyfile
  split
  · exact FS.isfile_writeFile_pres _ _ _ _ h
  · exact h
  · split <;> exact h

theorem FS.isfile_copy_pres (fs : FS) (src dst : FPath)
    (P : FPath) (h : fs.isfile P = true) :
    ((fs.copy src dst).stateOf).isfile P = true := by
  unfold FS.copy
  exact FS.isfile_copyfile_pres _ _ _ _ h

theorem FS.isfile_makedirs_pres (fs : FS) (p : FPath)
    (P : FPath) (h : fs.isfile P = true) :
    ((fs.makedirs p).stateOf).isfile P = true := by
  unfold FS.makedirs
  split
  · exact h
  · split
    · exact h
    · simp only [Res.stateOf]
      by_cases hp : p = P
      · subst hp; simp_all
      · rw [FS.isfile_iff] at h ⊢
        obtain ⟨c', hc⟩ := h
        exact ⟨c', by rw [FS.lookup_mk_cons, if_neg hp]; exact hc⟩

theorem FS.isfile_rmtree_pres (fs : FS) (p : FPath)
    (P : FPath) (h : fs.isfile P = true) (hp : ¬ p <+: P) :
    ((fs.rmtree p).stateOf).isfile P = true := by
  rw [FS.isfile_iff] at h ⊢
  obtain ⟨c', hc⟩ := h
  exact ⟨c', by rw [FS.lookup_rmtree_stateOf _ _ _ hp]; exact hc⟩

theorem FS.isfile_copytree_pres (fs : FS) (src dst : FPath)
    (P : FPath) (h : fs.isfile P = true) (hd : ¬ dst <+: P) :
    ((fs.copytree src dst).stateOf).isfile P = true := by
  rw [FS.isfile_iff] at h ⊢
  obtain ⟨c', hc⟩ := h
  exact ⟨c', by rw [FS.lookup_copytree_stateOf _ _ _ _ hd]; exact hc⟩

/-! ## Helper lemmas: sequencing -/

theorem Res.isfile_bind {r : Res} {f : FS → Res} {P : FPath}
    (h1 : (r.stateOf).isfile P = true)
    (h2 : ∀ s, r = .ok s → ((f s).stateOf).isfile P = true) :
    ((r.bind f).stateOf).isfile P = true := by
  cases r with
  | ok s => exact h2 s rfl
  | err e s => exact h1

theorem Res.lookup_bind {r : Res} {f : FS → Res} {q : FPath} {v : Option Entry}
    (h1 : (r.stateOf).lookup q = v)
    (h2 : ∀ s, r = .ok s → ((f s).stateOf).lookup q = v) :
    ((r.bind f).stateOf).lookup q = v := by
  cases r with
  | ok s => exact h2 s rfl
  | err e s => exact h1

theorem Res.bind_eq_ok {r : Res} {f : FS → Res} {s : FS}
    (h : r.bind f = .ok s) : ∃ m, r = .ok m ∧ f m = .ok s := by
  cases r with
  | ok m => exact ⟨m, rfl, h⟩
  | err e m => cases h

/-- A head-component mismatch rules out the prefix relation. -/
theorem not_prefix_of_head {a : Name} {t q : FPath}
    (h : q.head? ≠ some a) : ¬ (a :: t) <+: q := by
  rintro ⟨r, rfl⟩
  simp at h

/-! ## Helper lemmas: each pipeline stage preserves regular files it does not
own -/

theorem rmtreeIf_pres_isfile (fs : FS) (p : FPath) (P : FPath)
    (h : fs.isfile P = true) (hp : ¬ p <+: P) :
    (((if fs.pathExists p then fs.rmtree p else .ok fs)).stateOf).isfile P
      = true := by
  split
  · exact FS.isfile_rmtree_pres _ _ _ h hp
  · exact h

theorem stepCommit_pres_isfile (new_name : FPath) (fs : FS) (P : FPath)
    (h : fs.isfile P = true) :
    ((stepCommit new_name fs).stateOf).isfile P = true := by
  unfold stepCommit
  refine Res.isfile_bind (FS.isfile_makedirs_pres _ _ _ h) ?_
  intro s hs
  have h1 : s.isfile P = true := by
    have := FS.isfile_makedirs_pres fs ["archived_reports"] P h
    rw [hs] at this; exact this
  exact FS.isfile_copy_pres _ _ _ _ h1

theorem stepCharts_pres_isfile (fs : FS) (P : FPath)
    (h : fs.isfile P = true)
    (hp : ¬ (["archived_reports", "charts"] : FPath) <+: P) :
    ((stepCharts fs).stateOf).isfile P = true := by
  unfold stepCharts
  split
  · refine Res.isfile_bind (rmtreeIf_pres_isfile _ _ _ h hp) ?_
    intro s hs
    have h1 : s.isfile P = true := by
      have := rmtreeIf_pres_isfile fs ["archived_reports", "charts"] P h hp
      rw [hs] at this; exact this
    exact FS.isfile_copytree_pres _ _ _ _ h1 hp
  · exact h

theorem stepSiteLibs_pres_isfile (fs : FS) (P : FPath)
    (h : fs.isfile P = true)
    (hp : ¬ (["archived_reports", "site_libs"] : FPath) <+: P) :
    ((stepSiteLibs fs).stateOf).isfile P = true := by
  unfold stepSiteLibs
  split
  · refine Res.isfile_bind (rmtreeIf_pres_isfile _ _ _ h hp) ?_
    intro s hs
    have h1 : s.isfile P = true := by
      have := rmtreeIf_pres_isfile fs ["archived_reports", "site_libs"] P h hp
      rw [hs] at this; exact this
    exact FS.isfile_copytree_pres _ _ _ _ h1 hp
  · exact h

theorem stepResources_pres_isfile (nrd : Option FPath) (fs : FS) (P : FPath)
    (h : fs.isfile P = true)
    (hp : ∀ d, nrd = some d →
      ¬ (["archived_reports", basename d] : FPath) <+: P) :
    ((stepResources nrd fs).stateOf).isfile P = true := by
  rcases nrd with _ | d
  · exact h
  · have hpd := hp d rfl
    simp only [stepResources]
    split
    · refine Res.isfile_bind (rmtreeIf_pres_isfile _ _ _ h hpd) ?_
      intro s hs
      have h1 : s.isfile P = true := by
        have := rmtreeIf_pres_isfile fs ["archived_reports", basename d] P h hpd
        rw [hs] at this; exact this
      exact FS.isfile_copytree_pres _ _ _ _ h1 hpd
    · exact h

theorem stepQmd_pres_isfile (today : String) (fs : FS) (P : FPath)
    (h : fs.isfile P = true) :
    ((stepQmd today fs).stateOf).isfile P = true := by
  unfold stepQmd
  refine Res.isfile_bind (FS.isfile_makedirs_pres _ _ _ h) ?_
  intro s hs
  have h1 : s.isfile P = true := by
    have := FS.isfile_makedirs_pres fs ["archive_qmd"] P h
    rw [hs] at this; exact this
  exact FS.isfile_copyfile_pres _ _ _ _ h1

theorem update_archive_qmd_pres_isfile (p : FPath) (fs : FS) (P : FPath)
    (h : fs.isfile P = true) :
    ((update_archive_qmd p fs).stateOf).isfile P = true := by
  unfold update_archive_qmd
  split
  · exact FS.isfile_writeFile_pres _ _ _ _ h
  · exact h

theorem stepIndex_pres_isfile (fs : FS) (P : FPath)
    (h : fs.isfile P = true) :
    ((stepIndex fs).stateOf).isfile P = true :=
  update_archive_qmd_pres_isfile _ _ _ h

theorem publishItem_pres_isfile (item : Name) (fs : FS) (P : FPath)
    (h : fs.isfile P = true) (hP : P.head? ≠ some "docs") :
    ((publishItem item fs).stateOf).isfile P = true := by
  have hnp : ¬ (["docs", "archive", item] : FPath) <+: P :=
    not_prefix_of_head hP
  simp only [publishItem]
  split
  · exact FS.isfile_copy_pres _ _ _ _ h
  · split
    · refine Res.isfile_bind (rmtreeIf_pres_isfile _ _ _ h hnp) ?_
      intro s hs
      have h1 : s.isfile P = true := by
        have := rmtreeIf_pres_isfile fs ["docs", "archive", item] P h hnp
        rw [hs] at this; exact this
      exact FS.isfile_copytree_pres _ _ _ _ h1 hnp
    · exact h

theorem publishItems_pres_isfile (items : List Name) (fs : FS) (P : FPath)
    (h : fs.isfile P = true) (hP : P.head? ≠ some "docs") :
    ((publishItems items fs).stateOf).isfile P = true := by
  induction items generalizing fs with
  | nil => exact h
  | cons i is ih =>
    unfold publishItems
    refine Res.isfile_bind (publishItem_pres_isfile _ _ _ h hP) ?_
    intro s hs
    have h1 : s.isfile P = true := by
      have := publishItem_pres_isfile i fs P h hP
      rw [hs] at this; exact this
    exact ih s h1

theorem stepPublish_pres_isfile (fs : FS) (P : FPath)
    (h : fs.isfile P = true) (hP : P.head? ≠ some "docs") :
    ((stepPublish fs).stateOf).isfile P = true := by
  unfold stepPublish
  refine Res.isfile_bind (FS.isfile_makedirs_pres _ _ _ h) ?_
  intro s hs
  have h1 : s.isfile P = true := by
    have := FS.isfile_makedirs_pres fs ["docs", "archive"] P h
    rw [hs] at this; exact this
  split
  · split
    · exact publishItems_pres_isfile _ _ _ h1 hP
    · exact h1
  · exact h1

theorem basename_concat (d : FPath) (x : Name) : basename (d ++ [x]) = x := by
  simp [basename, List.getLastD_concat]

theorem store_pair_prefix_iff {m n : String} :
    ((["archived_reports", m] : FPath) <+: ["archived_reports", n]) ↔ m = n := by
  constructor
  · intro h
    exact (List.cons_prefix_cons.mp (List.cons_prefix_cons.mp h).2).1
  · rintro rfl
    exact List.prefix_rfl

/-- C6: Store append-only invariant.  Across every store-touching operation of
a run — store commit (STEP 5), shared-asset refresh (STEPS 6–7),
resource-directory commit (STEP 8), source archive (STEP 9), index rebuild
(STEP 10), and publish synchronization (STEP 11) — a previously committed
archived primary `.html` file `archived_reports/<n>` is never deleted: it is
still a regular file in the state each operation leaves behind (also when the
operation raises).  The resource-directory commit is taken with the argument
the run passes it, a path ending in `report_<today>_files`; the only deletions
those stages perform are the replace-in-place of `charts`, `site_libs`, and
the current version's resource directory, none of which can name a committed
`.html` entry. -/
theorem C6_store_append_only
    (n today : String) (d new_name : FPath) (fs : FS)
    (hn : pyEndsWith n ".html" = true)
    (hf : fs.isfile ["archived_reports", n] = true) :
    ((stepCommit new_name fs).stateOf).isfile ["archived_reports", n] = true ∧
    ((stepCharts fs).stateOf).isfile ["archived_reports", n] = true ∧
    ((stepSiteLibs fs).stateOf).isfile ["archived_reports", n] = true ∧
    ((stepResources (some (d ++ ["report_" ++ today ++ "_files"])) fs).stateOf).isfile
      ["archived_reports", n] = true ∧
    ((stepResources none fs).stateOf).isfile ["archived_reports", n] = true ∧
    ((stepQmd today fs).stateOf).isfile ["archived_reports", n] = true ∧
    ((stepIndex fs).stateOf).isfile ["archived_reports", n] = true ∧
    ((stepPublish fs).stateOf).isfile ["archived_reports", n] = true := by
  refine ⟨stepCommit_pres_isfile _ _ _ hf,
    stepCharts_pres_isfile _ _ hf ?_,
    stepSiteLibs_pres_isfile _ _ hf ?_,
    stepResources_pres_isfile _ _ _ hf ?_,
    stepResources_pres_isfile _ _ _ hf (by intro d' h; cases h),
    stepQmd_pres_isfile _ _ _ hf,
    stepIndex_pres_isfile _ _ hf,
    stepPublish_pres_isfile _ _ hf (by simp)⟩
  · intro h
    exact html_ne_charts hn (store_pair_prefix_iff.mp h).symm
  · intro h
    exact html_ne_site_libs hn (store_pair_prefix_iff.mp h).symm
  · intro d' hd'
    cases hd'
    rw [basename_concat]
    intro h
    exact html_ne_report_t_files hn today (store_pair_prefix_iff.mp h).symm

/-- Witness for C6 at a concrete store state and concrete names. -/
theorem C6_store_append_only_witness :
    (pyEndsWith "report_2024-01-01.html" ".html" = true ∧
     FS.isfile ⟨[(["archived_reports", "report_2024-01-01.html"],
        .file "OLD"), (["docs", "charts", "c.png"], .file "C")]⟩
       ["archived_reports", "report_2024-01-01.html"] = true) ∧
    ((stepCharts ⟨[(["archived_reports", "report_2024-01-01.html"],
        .file "OLD"), (["docs", "charts", "c.png"], .file "C")]⟩).stateOf).isfile
      ["archived_reports", "report_2024-01-01.html"] = true := by
  refine ⟨⟨by decide, by decide⟩, ?_⟩
  exact (C6_store_append_only "report_2024-01-01.html" "2024-06-01" ["docs"]
    ["docs", "report_2024-06-01.html"] _ (by decide) (by decide)).2.1

/-! ## Helper lemmas: the descending sort comparator is a linear order -/

theorem lexLt_nil_right (a : List Char) : lexLt a [] = false := by
  cases a <;> rfl

theorem lexLt_cons_iff {a b : Char} {as bs : List Char} :
    lexLt (a :: as) (b :: bs) = true ↔
      a.toNat < b.toNat ∨ (a.toNat = b.toNat ∧ lexLt as bs = true) := by
  rw [show lexLt (a :: as) (b :: bs) =
    (if a.toNat < b.toNat then true
     else if b.toNat < a.toNat then false else lexLt as bs) from rfl]
  by_cases h1 : a.toNat < b.toNat
  · simp [h1]
  · by_cases h2 : b.toNat < a.toNat
    · rw [if_neg h1, if_pos h2]
      constructor
      · intro h; cases h
      · rintro (h | ⟨h, _⟩) <;> omega
    · rw [if_neg h1, if_neg h2]
      constructor
      · intro h; exact Or.inr ⟨by omega, h⟩
      · rintro (h | ⟨_, h⟩)
        · omega
        · exact h

theorem char_eq_of_toNat_eq {a b : Char} (h : a.toNat = b.toNat) : a = b :=
  Char.ext (UInt32.ext h)

theorem lexLt_asymm : ∀ {a b : List Char},
    lexLt a b = true → lexLt b a = false := by
  intro a
  induction a with
  | nil => intro b h; exact lexLt_nil_right b
  | cons x xs ih =>
    intro b h
    cases b with
    | nil => rw [lexLt_nil_right] at h; cases h
    | cons y ys =>
      rcases lexLt_cons_iff.mp h with h1 | ⟨h1, h2⟩
      · rw [← Bool.not_eq_true]
        intro hc
        rcases lexLt_cons_iff.mp hc with hc1 | ⟨hc1, _⟩ <;> omega
      · rw [← Bool.not_eq_true]
        intro hc
        rcases lexLt_cons_iff.mp hc with hc1 | ⟨_, hc2⟩
        · omega
        · rw [ih h2] at hc2; cases hc2

theorem lexLt_connex : ∀ {a b : List Char},
    lexLt a b = false → lexLt b a = false → a = b := by
  intro a
  induction a with
  | nil =>
    intro b h1 _
    cases b with
    | nil => rfl
    | cons y ys => cases h1
  | cons x xs ih =>
    intro b h1 h2
    cases b with
    | nil => cases h2
    | cons y ys =>
      rw [← Bool.not_eq_true] at h1 h2
      rw [lexLt_cons_iff] at h1 h2
      push_neg at h1 h2
      have hxy : x.toNat = y.toNat := by omega
      have := ih (Bool.not_eq_true _ |>.mp (h1.2 hxy))
        (Bool.not_eq_true _ |>.mp (h2.2 hxy.symm))
      rw [char_eq_of_toNat_eq hxy, this]

theorem lexLt_trans_or : ∀ {a b c : List Char},
    lexLt a c = true → lexLt a b = true ∨ lexLt b c = true := by
  intro a
  induction a with
  | nil =>
    intro b c h
    cases c with
    | nil => cases h
    | cons z zs =>
      cases b with
      | nil => exact Or.inr h
      | cons y ys => exact Or.inl rfl
  | cons x xs ih =>
    intro b c h
    cases c with
    | nil => rw [lexLt_nil_right] at h; cases h
    | cons z zs =>
      cases b with
      | nil => exact Or.inr rfl
      | cons y ys =>
        rcases lexLt_cons_iff.mp h with h1 | ⟨h1, h2⟩
        · by_cases hxy : x.toNat < y.toNat
          · exact Or.inl (lexLt_cons_iff.mpr (Or.inl hxy))
          · exact Or.inr (lexLt_cons_iff.mpr (Or.inl (by omega)))
        · by_cases hxy : x.toNat < y.toNat
          · exact Or.inl (lexLt_cons_iff.mpr (Or.inl hxy))
          · by_cases hyx : y.toNat < x.toNat
            · exact Or.inr (lexLt_cons_iff.mpr (Or.inl (by omega)))
            · rcases ih h2 with hl | hr
              · exact Or.inl (lexLt_cons_iff.mpr (Or.inr ⟨by omega, hl⟩))
              · exact Or.inr (lexLt_cons_iff.mpr (Or.inr ⟨by omega, hr⟩))

instance : IsTotal Name (fun a b : Name => pyGe a b = true) := ⟨by
  intro a b
  simp only [pyGe, pyLt, Bool.not_eq_true']
  by_cases h : lexLt a.data b.data = true
  · exact Or.inr (lexLt_asymm h)
  · exact Or.inl (Bool.not_eq_true _ |>.mp h)⟩

instance : IsTrans Name (fun a b : Name => pyGe a b = true) := ⟨by
  intro a b c h1 h2
  simp only [pyGe, pyLt, Bool.not_eq_true'] at h1 h2 ⊢
  rw [← Bool.not_eq_true] at h1 h2 ⊢
  intro hc
  rcases @lexLt_trans_or a.data b.data c.data hc with h | h
  · exact h1 h
  · exact h2 h⟩

instance : IsAntisymm Name (fun a b : Name => pyGe a b = true) := ⟨by
  intro a b h1 h2
  simp only [pyGe, pyLt, Bool.not_eq_true'] at h1 h2
  exact (string_eq_iff_data.mpr (lexLt_connex h2 h1)).symm⟩

/-- The list the index is rendered from is sorted in descending order. -/
theorem indexEntries_sorted (fs : FS) :
    List.Sorted (fun a b : Name => pyGe a b = true) (indexEntries fs) :=
  List.sorted_insertionSort _ _

theorem pysortDesc_perm (l : List Name) : List.Perm (pysortDesc l) l :=
  List.perm_insertionSort _ l

/-- Two permuted listings sort identically. -/
theorem pysortDesc_eq_of_perm {l₁ l₂ : List Name} (h : List.Perm l₁ l₂) :
    pysortDesc l₁ = pysortDesc l₂ :=
  List.eq_of_perm_of_sorted
    ((pysortDesc_perm l₁).trans (h.trans (pysortDesc_perm l₂).symm))
    (List.sorted_insertionSort _ _) (List.sorted_insertionSort _ _)

/-! ## Helper lemmas: filters that only drop irrelevant entries -/

theorem any_filter_of {α : Type} (l : List α) (h pred : α → Bool)
    (himp : ∀ e, pred e = true → h e = true) :
    (l.filter h).any pred = l.any pred := by
  induction l with
  | nil => rfl
  | cons a l ih =>
    by_cases ha : h a = true
    · simp [List.filter_cons, ha, List.any_cons, ih]
    · have hpa : pred a = false := by
        rw [← Bool.not_eq_true]; intro hc; exact ha (himp a hc)
      simp [List.filter_cons, ha, List.any_cons, hpa, ih]

theorem filterMap_filter_of {α β : Type} (l : List α) (h : α → Bool)
    (g : α → Option β) (himp : ∀ e, h e = false → g e = none) :
    (l.filter h).filterMap g = l.filterMap g := by
  induction l with
  | nil => rfl
  | cons a l ih =>
    by_cases ha : h a = true
    · simp [List.filter_cons, ha, List.filterMap_cons, ih]
    · have ha' : h a = false := by revert ha; cases h a <;> simp
      simp [List.filter_cons, ha', List.filterMap_cons, himp a ha', ih]

set_option maxRecDepth 4000 in
/-- C5: Index ordering.  For every store state the entry list the index is
rendered from is sorted in descending code-point order (newest first); and on
the concrete store holding versions 2024-01-01, 2024-01-15 and 2024-02-01 the
builder lists them in the order 2024-02-01, 2024-01-15, 2024-01-01, each entry
rendered as `- [label](file)` with the `.html` extension stripped from the
label. -/
theorem C5_index_ordering (fs : FS) :
    List.Sorted (fun a b : Name => pyGe a b = true) (indexEntries fs) ∧
    indexEntries (⟨[(["archived_reports", "report_2024-01-01.html"], .file "A"),
        (["archived_reports", "report_2024-01-15.html"], .file "B"),
        (["archived_reports", "report_2024-02-01.html"], .file "C"),
        (["archive"], .dir)]⟩ : FS) =
      ["report_2024-02-01.html", "report_2024-01-15.html",
       "report_2024-01-01.html"] ∧
    (update_archive_qmd ["archive", "index.qmd"]
        ⟨[(["archived_reports", "report_2024-01-01.html"], .file "A"),
          (["archived_reports", "report_2024-01-15.html"], .file "B"),
          (["archived_reports", "report_2024-02-01.html"], .file "C"),
          (["archive"], .dir)]⟩).stateOf.lookup ["archive", "index.qmd"] =
      some (.file ("---\ntitle: Archive\n---\n\n# Past Reports\n\n" ++
        "- [report_2024-02-01](report_2024-02-01.html)\n" ++
        "- [report_2024-01-15](report_2024-01-15.html)\n" ++
        "- [report_2024-01-01](report_2024-01-01.html)\n")) :=
  ⟨indexEntries_sorted fs, by decide, by decide⟩

/-- C7: Empty-store placeholder.  Whenever the store directory is absent, or
present with no `.html` name in its listing, the index builder still succeeds
(given only that the index document itself is writable: its parent exists and
it is not a directory), the generated document is exactly the placeholder page
"No archived reports yet." with zero entries, and the rendered entry list is
empty. -/
theorem C7_empty_store_placeholder (fs : FS) (p : FPath)
    (hstore : fs.pathExists ["archived_reports"] = false ∨
      (fs.isdir ["archived_reports"] = true ∧
        (fs.childNames ["archived_reports"]).all
          (fun n => ! pyEndsWith n ".html") = true))
    (hnd : fs.isdir p = false) (hw : fs.parentOk p = true) :
    (update_archive_qmd p fs).isOk = true ∧
    ((update_archive_qmd p fs).stateOf).lookup p =
      some (.file
        "---\ntitle: Archive\n---\n\n# Past Reports\n\nNo archived reports yet.\n") ∧
    indexEntries fs = [] := by
  have hlist : htmlListing fs = [] := by
    unfold htmlListing
    rcases hstore with h | ⟨h, hall⟩
    · rw [if_neg]
      rw [(FS.pathExists_false_iff.mp h).2]
      simp
    · rw [if_pos h, List.filter_eq_nil_iff]
      intro a ha
      have := (List.all_eq_true.mp hall) a ha
      simp only [Bool.not_eq_true'] at this
      simp [this]
  have hguard : fs.isdir ["archived_reports"] = true ∨
      ¬ fs.pathExists ["archived_reports"] = true := by
    rcases hstore with h | ⟨h, _⟩
    · exact Or.inr (by rw [h]; simp)
    · exact Or.inl h
  have hcontent : indexContent (htmlListing fs) =
      "---\ntitle: Archive\n---\n\n# Past Reports\n\nNo archived reports yet.\n" := by
    rw [hlist]; rfl
  unfold update_archive_qmd
  rw [if_pos hguard, hcontent]
  unfold FS.writeFile
  rw [if_neg (by rw [hnd]; simp), if_neg (by rw [hw]; simp)]
  refine ⟨rfl, ?_, by rw [indexEntries, hlist]; rfl⟩
  simp only [Res.stateOf]
  rw [FS.lookup_mk_cons, if_pos rfl]

/-- C9: Non-watched pass-through.  If every path in the trigger list fails the
watched-artifact test (base name `report` with extension `.html`), the whole
run returns the filesystem unchanged: no renames, no store writes, no index
regeneration, no publish synchronization. -/
theorem C9_nonwatched_passthrough (today : String) (files : List FPath)
    (fs : FS)
    (h : ∀ f ∈ files, ¬ ((splitext (basename f)).1 = "report" ∧
        (splitext (basename f)).2 = ".html")) :
    run today files fs = .ok fs := by
  induction files generalizing fs with
  | nil => rfl
  | cons f rest ih =>
    have hf := h f (List.mem_cons_self f rest)
    have hp : processFile today f fs = .ok fs := by
      unfold processFile
      split
      · rfl
      · rw [if_pos]
        exact hf
    show (processFile today f fs).bind (run today rest) = .ok fs
    rw [hp]
    exact ih fs (fun g hg => h g (List.mem_cons_of_mem f hg))

/-- Witness for C9: a trigger list containing only `docs/about.html` leaves a
concrete filesystem untouched. -/
theorem C9_nonwatched_passthrough_witness :
    run "2024-06-01" [["docs", "about.html"]]
      ⟨[(["docs", "about.html"], .file "ABOUT"),
        (["archived_reports", "report_2024-01-01.html"], .file "OLD")]⟩ =
    .ok ⟨[(["docs", "about.html"], .file "ABOUT"),
        (["archived_reports", "report_2024-01-01.html"], .file "OLD")]⟩ :=
  C9_nonwatched_passthrough "2024-06-01" [["docs", "about.html"]] _ (by decide)

/-- Witness for C7 at a store directory that exists but holds no `.html`
file. -/
theorem C7_empty_store_placeholder_witness :
    (update_archive_qmd ["archive", "index.qmd"]
      ⟨[(["archived_reports", "notes.txt"], .file "N"),
        (["archive"], .dir)]⟩).isOk = true ∧
    ((update_archive_qmd ["archive", "index.qmd"]
      ⟨[(["archived_reports", "notes.txt"], .file "N"),
        (["archive"], .dir)]⟩).stateOf).lookup ["archive", "index.qmd"] =
      some (.file
        "---\ntitle: Archive\n---\n\n# Past Reports\n\nNo archived reports yet.\n") ∧
    indexEntries ⟨[(["archived_reports", "notes.txt"], .file "N"),
        (["archive"], .dir)]⟩ = [] :=
  C7_empty_store_placeholder _ _ (Or.inr ⟨by decide, by decide⟩)
    (by decide) (by decide)

/-! ## Helper lemmas: invariance of the store view under the index write -/

theorem FS.isdir_cons_file (p : FPath) (c : String) (l : List (FPath × Entry))
    (x : FPath) (hne : p ≠ x) (hnp : ¬ x <+: p) :
    FS.isdir ⟨(p, .file c) :: l⟩ x = FS.isdir ⟨l⟩ x := by
  unfold FS.isdir
  rw [FS.lookup_mk_cons, if_neg hne]
  simp only [List.any_cons]
  have hfalse : (decide (x ≠ (p, Entry.file c).1) &&
      decide (x <+: (p, Entry.file c).1)) = false := by
    simp [hnp]
  rw [hfalse, Bool.false_or]

theorem FS.isdir_removeFile (fs : FS) (p : FPath) (x : FPath)
    (hne : x ≠ p) (hnp : ¬ x <+: p) :
    (fs.removeFile p).isdir x = fs.isdir x := by
  unfold FS.isdir
  have hl : (fs.removeFile p).lookup x = fs.lookup x := by
    rw [FS.lookup_removeFile, if_neg hne]
  rw [hl]
  congr 1
  show ((fs.removeFile p).entries).any _ = _
  unfold FS.removeFile
  exact any_filter_of _ _ _ (by
    intro e he
    simp only [Bool.and_eq_true, decide_eq_true_eq] at he
    exact decide_eq_true (fun hep : e.1 = p => hnp (hep ▸ he.2)))

theorem FS.isfile_cons_removeFile (fs : FS) (p : FPath) (c : String)
    (x : FPath) (hne : p ≠ x) :
    FS.isfile ⟨(p, .file c) :: (fs.removeFile p).entries⟩ x = fs.isfile x := by
  unfold FS.isfile
  rw [FS.lookup_mk_cons, if_neg hne, FS.lookup_removeFile,
    if_neg (fun hq => hne hq.symm)]

theorem FS.childNames_cons_removeFile (fs : FS) (p : FPath) (c : String)
    (d : FPath) (hnp : ¬ d <+: p) :
    FS.childNames ⟨(p, .file c) :: (fs.removeFile p).entries⟩ d =
      fs.childNames d := by
  unfold FS.childNames FS.removeFile
  congr 1
  simp only [List.filterMap_cons]
  rw [if_neg (by simp [hnp])]
  exact filterMap_filter_of _ _ _ (by
    intro e he
    simp only [decide_eq_false_iff_not, Decidable.not_not] at he
    rw [if_neg (by simp [he, hnp])])

/-- The state left behind by a failing index rebuild is the input state. -/
theorem update_archive_qmd_err_state {p : FPath} {fs : FS} {e : Err} {s : FS}
    (h : update_archive_qmd p fs = .err e s) : s = fs := by
  unfold update_archive_qmd FS.writeFile at h
  split at h
  · split at h
    · cases h; rfl
    · split at h
      · cases h; rfl
      · cases h
  · cases h; rfl

/-- Rebuilding the index twice: the second rebuild recomputes the same store
listing (the index document lives outside the store) and overwrites the index
file with identical content, reproducing the state exactly. -/
theorem stepIndex_ok_idem {fs gs : FS} (h : stepIndex fs = .ok gs) :
    stepIndex gs = .ok gs := by
  unfold stepIndex update_archive_qmd FS.writeFile at h
  split at h
  case isFalse => cases h
  case isTrue hg =>
  split at h
  case isTrue => cases h
  case isFalse hd =>
  split at h
  case isTrue => cases h
  case isFalse hpar =>
  cases h
  set p : FPath := ["archive", "index.qmd"] with hp
  set c := indexContent (htmlListing fs) with hc
  have hnp : ¬ (["archived_reports"] : FPath) <+: p := by decide
  have hne : p ≠ ["archived_reports"] := by decide
  set gs : FS := ⟨(p, .file c) :: (fs.removeFile p).entries⟩ with hgs
  have hisdir : gs.isdir ["archived_reports"] = fs.isdir ["archived_reports"] := by
    rw [hgs, FS.isdir_cons_file _ _ _ _ hne hnp,
      FS.isdir_removeFile _ _ _ (fun hq => hne hq.symm) hnp]
  have hisfile : gs.isfile ["archived_reports"] = fs.isfile ["archived_reports"] :=
    FS.isfile_cons_removeFile fs p c _ hne
  have hexists : gs.pathExists ["archived_reports"] =
      fs.pathExists ["archived_reports"] := by
    unfold FS.pathExists
    rw [hisdir, hisfile]
  have hchild : gs.childNames ["archived_reports"] =
      fs.childNames ["archived_reports"] :=
    FS.childNames_cons_removeFile fs p c _ hnp
  have hlist : htmlListing gs = htmlListing fs := by
    unfold htmlListing
    rw [hisdir, hchild]
  have hgdir : gs.isdir p = false := by
    unfold FS.isdir
    rw [hgs]
    rw [FS.lookup_mk_cons, if_pos rfl]
    simp only [List.any_cons]
    have h1 : (decide (p ≠ (p, Entry.file c).1) &&
        decide (p <+: (p, Entry.file c).1)) = false := by simp
    rw [h1, Bool.false_or]
    have h2 : ((fs.removeFile p).entries).any
        (fun e => decide (p ≠ e.1) && decide (p <+: e.1)) =
        (fs.entries).any (fun e => decide (p ≠ e.1) && decide (p <+: e.1)) := by
      unfold FS.removeFile
      exact any_filter_of _ _ _ (by
        intro e he
        simp only [Bool.and_eq_true, decide_eq_true_eq] at he
        exact decide_eq_true (fun hep : e.1 = p => he.1 hep.symm))
    rw [h2]
    have h3 := hd
    unfold FS.isdir at h3
    rw [Bool.not_eq_true, Bool.or_eq_false_iff] at h3
    exact h3.2
  have hgpar : gs.parentOk p = true := by
    unfold FS.parentOk
    have : gs.isdir (p.dropLast) = true := by
      unfold FS.isdir
      refine Bool.or_eq_true _ _ |>.mpr (Or.inr ?_)
      rw [hgs]
      simp only [List.any_cons]
      refine Bool.or_eq_true _ _ |>.mpr (Or.inl ?_)
      show (decide (p.dropLast ≠ p) && decide (p.dropLast <+: p)) = true
      rw [hp]
      decide
    rw [this, Bool.or_true]
  have hfilter : (gs.removeFile p).entries = (fs.removeFile p).entries := by
    rw [hgs]
    unfold FS.removeFile
    simp only [List.filter_cons, decide_eq_true_eq]
    rw [if_neg (by simp)]
    show (fs.entries.filter _).filter _ = _
    rw [List.filter_filter]
    congr 1
    funext a
    rw [Bool.and_self]
  unfold stepIndex update_archive_qmd FS.writeFile
  rw [if_pos (by rw [hisdir, hexists]; exact hg), if_neg (by rw [hgdir]; simp),
    if_neg (by rw [hgpar]; simp), hlist, hfilter]

/-- C8: Index determinism.  The generated index text is a pure function of the
multiset of `.html` names listed in the store: two stores with permuted
listings produce byte-identical documents; and invoking the index builder a
second time against the unchanged store reproduces the filesystem state of the
first invocation exactly (byte-for-byte identical index file). -/
theorem C8_index_determinism (fs₁ fs₂ fs : FS)
    (hperm : List.Perm (htmlListing fs₁) (htmlListing fs₂)) :
    indexContent (htmlListing fs₁) = indexContent (htmlListing fs₂) ∧
    (stepIndex ((stepIndex fs).stateOf)).stateOf = (stepIndex fs).stateOf := by
  constructor
  · unfold indexContent
    rw [pysortDesc_eq_of_perm hperm]
  · cases hr : stepIndex fs with
    | ok gs =>
      simp only [Res.stateOf]
      rw [stepIndex_ok_idem hr]
    | err e s =>
      have hs : s = fs := update_archive_qmd_err_state hr
      show (stepIndex s).stateOf = s
      rw [hs, hr]
      exact hs

/-- Witness for C8: two stores holding the same reports under different
association-list representations produce identical index text. -/
theorem C8_index_determinism_witness :
    indexContent (htmlListing ⟨[(["archived_reports", "report_2024-01-01.html"],
        .file "A"), (["archived_reports", "report_2024-01-15.html"], .file "B")]⟩) =
      indexContent (htmlListing ⟨[(["archived_reports", "report_2024-01-15.html"],
        .file "X"), (["archived_reports", "report_2024-01-01.html"], .file "Y")]⟩) ∧
    (stepIndex ((stepIndex ⟨[(["archive"], .dir)]⟩).stateOf)).stateOf =
      (stepIndex ⟨[(["archive"], .dir)]⟩).stateOf :=
  C8_index_determinism _ _ ⟨[(["archive"], .dir)]⟩ (by decide)

set_option maxRecDepth 8000 in
/-- C1: Idempotent re-run — demonstration that the code violates it.  After a
first run on the scenario state, the publish directory keeps
`docs/report_2024-06-01_files/`.  When the same artifact is freshly re-rendered
the same day and the pipeline re-runs, `shutil.move` finds that destination
directory existing and moves `report_files` *inside* it; the second run
completes, and both the Persistent Archive Store and `docs/archive/` now
contain the nested `report_2024-06-01_files/report_files/plot.png`, which is
absent after a single run — the two-run final state differs from the one-run
state, with merged/nested contents inside a replaced resource directory. -/
theorem C1_rerun_not_idempotent :
    let fs0 : FS := ⟨[(["docs", "report.html"], .file "HTML"),
        (["docs", "report_files", "plot.png"], .file "PLOT"),
        (["report.qmd"], .file "QMD"),
        (["archive"], .dir)]⟩
    let s1 := (run "2024-06-01" [["docs", "report.html"]] fs0).stateOf
    let s1r : FS := ⟨(["docs", "report.html"], .file "HTML") ::
        (["docs", "report_files", "plot.png"], .file "PLOT") :: s1.entries⟩
    let r2 := run "2024-06-01" [["docs", "report.html"]] s1r
    (run "2024-06-01" [["docs", "report.html"]] fs0).isOk = true ∧
    r2.isOk = true ∧
    s1.lookup ["archived_reports", "report_2024-06-01_files", "report_files",
      "plot.png"] = none ∧
    r2.stateOf.lookup ["archived_reports", "report_2024-06-01_files",
      "report_files", "plot.png"] = some (.file "PLOT") ∧
    s1.lookup ["docs", "archive", "report_2024-06-01_files", "report_files",
      "plot.png"] = none ∧
    r2.stateOf.lookup ["docs", "archive", "report_2024-06-01_files",
      "report_files", "plot.png"] = some (.file "PLOT") := by
  decide

/-! ## Helper lemmas for the relocation phase -/

theorem prefix_eq_of_length {α : Type} {l₁ l₂ n : List α}
    (h₁ : l₁ <+: n) (h₂ : l₂ <+: n) (h : l₁.length = l₂.length) : l₁ = l₂ := by
  rw [List.prefix_iff_eq_take] at h₁ h₂
  rw [h₁, h, ← h₂]

theorem concat_prefix_iff {d : FPath} {x y : Name} {t : FPath} :
    ((d ++ [x]) <+: (d ++ [y] ++ t)) ↔ x = y := by
  rw [List.append_assoc, List.prefix_append_right_inj]
  constructor
  · intro h
    simpa using h
  · rintro rfl
    exact List.prefix_append _ _

theorem report_vfiles_ne_rhtml (t : String) :
    "report_" ++ t ++ "_files" ≠ "report.html" := by
  intro h
  rw [string_eq_iff_data, sdata_append, sdata_append] at h
  have := congrArg List.length h
  simp [List.length_append] at this

theorem FS.pathExists_of_isfile {fs : FS} {p : FPath}
    (h : fs.isfile p = true) : fs.pathExists p = true := by
  unfold FS.pathExists; rw [h]; rfl

theorem FS.pathExists_of_isdir {fs : FS} {p : FPath}
    (h : fs.isdir p = true) : fs.pathExists p = true := by
  unfold FS.pathExists; rw [h]; simp

theorem FS.lookup_eq_none_of_not_exists {fs : FS} {p : FPath}
    (h : fs.pathExists p = false) : fs.lookup p = none := by
  obtain ⟨hf, hd⟩ := FS.pathExists_false_iff.mp h
  cases hl : fs.lookup p with
  | none => rfl
  | some e =>
    cases e with
    | file c => rw [FS.isfile_iff.mpr ⟨c, hl⟩] at hf; cases hf
    | dir => rw [FS.isdir_iff.mpr (Or.inl hl)] at hd; cases hd

/-- A move whose destination is fresh (and writable) is exactly a rename. -/
theorem FS.move_fresh (fs : FS) (src dst : FPath)
    (hsrc : fs.pathExists src = true) (hdst : fs.pathExists dst = false)
    (hpar : fs.parentOk dst = true) :
    fs.move src dst = .ok (fs.rename src dst) := by
  obtain ⟨hdf, hdd⟩ := FS.pathExists_false_iff.mp hdst
  unfold FS.move
  rw [if_neg (by rw [hsrc]; simp), if_neg (by rw [hdd]; simp),
    if_neg (by rw [hdf]; simp), if_neg (by rw [hpar]; simp)]

theorem FS.parentOk_concat {fs : FS} {d : FPath} {x : Name}
    (h : ∃ e, fs.lookup (d ++ [x]) = some e) (y : Name) :
    fs.parentOk (d ++ [y]) = true := by
  unfold FS.parentOk
  rw [List.dropLast_concat]
  cases d with
  | nil => rfl
  | cons a d' =>
    obtain ⟨e, he⟩ := h
    have hmem := FS.lookup_mem he
    have : fs.isdir (a :: d') = true := by
      rw [FS.isdir_iff]
      right
      refine ⟨_, hmem, ?_, List.prefix_append _ _⟩
      intro hc
      have := congrArg List.length hc
      simp at this
    rw [this, Bool.or_true]

theorem FS.mem_rename_of_mem {fs : FS} {src dst : FPath} {x : FPath × Entry}
    (hx : x ∈ fs.entries) (h1 : x.1 ≠ dst) (h2 : ¬ src <+: x.1) :
    x ∈ (fs.rename src dst).entries := by
  unfold FS.rename FS.removeFile
  rw [List.mem_append]
  right
  rw [List.mem_filter]
  refine ⟨?_, by simpa using h2⟩
  rw [List.mem_filter]
  exact ⟨hx, by simpa using h1⟩

theorem FS.mem_rename_elim {fs : FS} {src dst : FPath} {x : FPath × Entry}
    (hx : x ∈ (fs.rename src dst).entries) :
    (∃ t, x.1 = dst ++ t ∧ (src ++ t, x.2) ∈ fs.entries) ∨
    (x ∈ fs.entries ∧ x.1 ≠ dst ∧ ¬ src <+: x.1) := by
  unfold FS.rename FS.removeFile at hx
  rw [List.mem_append] at hx
  rcases hx with hx | hx
  · rw [List.mem_filterMap] at hx
    obtain ⟨a, ha, hga⟩ := hx
    left
    split at hga
    · rename_i hpre
      rw [decide_eq_true_eq] at hpre
      obtain ⟨r, hr⟩ := hpre
      cases hga
      refine ⟨r, by rw [← hr, List.drop_left], ?_⟩
      rw [hr]
      exact ha
    · cases hga
  · rw [List.mem_filter] at hx
    obtain ⟨hx1, hx2⟩ := hx
    rw [List.mem_filter] at hx1
    obtain ⟨hmem, hne⟩ := hx1
    right
    exact ⟨hmem, by simpa using hne, by simpa using hx2⟩

theorem concat_prefix_concat {d : FPath} {x y : Name} :
    ((d ++ [x]) <+: (d ++ [y])) ↔ x = y := by
  have h := @concat_prefix_iff d x y []
  rwa [List.append_nil] at h

theorem FS.lookup_rename_srcGone (fs : FS) (src dst : FPath) (q : FPath)
    (h1 : src <+: q) (h2 : ¬ dst <+: q) :
    (fs.rename src dst).lookup q = none := by
  simp only [FS.rename]
  rw [FS.lookup_append, FS.lookup_renameMap_notPrefix _ _ _ _ h2]
  simp only [Option.orElse]
  have hk := FS.lookup_filter_key (fs.removeFile dst).entries
      (fun x => decide (¬ src <+: x)) q
  rw [show (fun e : FPath × Entry => decide (¬ src <+: e.1)) =
      (fun e : FPath × Entry => (fun x => decide (¬ src <+: x)) e.1) from rfl,
    hk, if_neg (by simpa using h1)]


theorem concat_inj {d : FPath} {x y : Name} (h : d ++ [x] = d ++ [y]) :
    x = y := by
  have := List.append_cancel_left h
  simpa using this

theorem concat_length_eq (d : FPath) (x y : Name) :
    (d ++ [x]).length = (d ++ [y]).length := by simp

/-- A relocation phase with fresh versioned destination names is exactly the
two renames: the explicit result state, the recorded resource flag, the
relocated companion subtree, the removal of the old companion name, and the
relocated versioned primary content. -/
theorem renamePhase_fresh (today : String) (d : FPath) (fs : FS) (cH : String)
    (hcH : fs.lookup (d ++ ["report.html"]) = some (.file cH))
    (hres : fs.isdir (d ++ ["report_files"]) = true)
    (hfresh1 : fs.pathExists (d ++ ["report_" ++ today ++ ".html"]) = false)
    (hfresh2 : fs.pathExists (d ++ ["report_" ++ today ++ "_files"]) = false) :
    renamePhase today (d ++ ["report.html"]) fs =
      .ok ((fs.rename (d ++ ["report.html"])
          (d ++ ["report_" ++ today ++ ".html"])).rename
        (d ++ ["report_files"]) (d ++ ["report_" ++ today ++ "_files"])) ∧
    newResDirOf today (d ++ ["report.html"]) fs =
      some (d ++ ["report_" ++ today ++ "_files"]) ∧
    (∀ t, ((renamePhase today (d ++ ["report.html"]) fs).stateOf).lookup
      (d ++ ["report_" ++ today ++ "_files"] ++ t) =
      fs.lookup (d ++ ["report_files"] ++ t)) ∧
    ((renamePhase today (d ++ ["report.html"]) fs).stateOf).pathExists
      (d ++ ["report_files"]) = false ∧
    ((renamePhase today (d ++ ["report.html"]) fs).stateOf).lookup
      (d ++ ["report_" ++ today ++ ".html"]) = some (.file cH) := by
  have hbe : splitext (basename (d ++ ["report.html"])) = ("report", ".html") := by
    rw [basename_concat]; decide
  have hs0 : ("report" : String) ++ "_" = "report_" := rfl
  have hs3 : ("report" : String) ++ "_files" = "report_files" := rfl
  have hf : fs.isfile (d ++ ["report.html"]) = true :=
    FS.isfile_iff.mpr ⟨cH, hcH⟩
  have hne_f_rd : ("report.html" : String) ≠ "report_files" := by decide
  have hne_nn_rd : "report_" ++ today ++ ".html" ≠ "report_files" :=
    report_vhtml_ne_files today
  have hne_nn_nr : "report_" ++ today ++ ".html" ≠ "report_" ++ today ++ "_files" :=
    report_ts_ne today ".html" "_files" (by decide)
  have hne_nr_rd : "report_" ++ today ++ "_files" ≠ "report_files" :=
    report_vfiles_ne_files today
  have hmove1 : fs.move (d ++ ["report.html"])
      (d ++ ["report_" ++ today ++ ".html"]) =
      .ok (fs.rename (d ++ ["report.html"])
        (d ++ ["report_" ++ today ++ ".html"])) :=
    FS.move_fresh _ _ _ (FS.pathExists_of_isfile hf) hfresh1
      (FS.parentOk_concat ⟨_, hcH⟩ _)
  set s1 := fs.rename (d ++ ["report.html"]) (d ++ ["report_" ++ today ++ ".html"])
    with hs1
  have huntouchedRD : ∀ u : FPath,
      s1.lookup (d ++ ["report_files"] ++ u) =
      fs.lookup (d ++ ["report_files"] ++ u) := by
    intro u
    rw [hs1]
    exact FS.lookup_rename_untouched _ _ _ _
      (fun hc => hne_f_rd (concat_prefix_iff.mp hc))
      (fun hc => hne_nn_rd (concat_prefix_iff.mp hc))
  have hs1RD : s1.isdir (d ++ ["report_files"]) = true := by
    rcases FS.isdir_iff.mp hres with hdirm | ⟨x, hx, hxne, hxpre⟩
    · refine FS.isdir_iff.mpr (Or.inl ?_)
      have hu := huntouchedRD []
      rw [List.append_nil] at hu
      rw [hu]
      exact hdirm
    · refine FS.isdir_iff.mpr (Or.inr ⟨x, ?_, hxne, hxpre⟩)
      rw [hs1]
      refine FS.mem_rename_of_mem hx ?_ ?_
      · intro hc
        rw [hc] at hxpre
        exact hne_nn_rd (concat_prefix_concat.mp hxpre).symm
      · intro hc
        have heq : (d ++ ["report.html"]) = (d ++ ["report_files"]) :=
          prefix_eq_of_length hc hxpre (concat_length_eq d _ _)
        exact hne_f_rd (concat_inj heq)
  have hs1lookNR : ∀ u : FPath,
      s1.lookup (d ++ ["report_" ++ today ++ "_files"] ++ u) =
      fs.lookup (d ++ ["report_" ++ today ++ "_files"] ++ u) := by
    intro u
    rw [hs1]
    exact FS.lookup_rename_untouched _ _ _ _
      (fun hc => report_vfiles_ne_rhtml today (concat_prefix_iff.mp hc).symm)
      (fun hc => hne_nn_nr (concat_prefix_iff.mp hc))
  have hNRnone : fs.lookup (d ++ ["report_" ++ today ++ "_files"]) = none :=
    FS.lookup_eq_none_of_not_exists hfresh2
  have hs1NRfresh : s1.pathExists (d ++ ["report_" ++ today ++ "_files"]) = false := by
    rw [FS.pathExists_false_iff]
    constructor
    · unfold FS.isfile
      have hu := hs1lookNR []
      rw [List.append_nil] at hu
      rw [hu, hNRnone]
    · rw [← Bool.not_eq_true]
      intro hdir
      rcases FS.isdir_iff.mp hdir with hdirm | ⟨x, hx, hxne, hxpre⟩
      · have hu := hs1lookNR []
        rw [List.append_nil] at hu
        rw [hu, hNRnone] at hdirm
        cases hdirm
      · rw [hs1] at hx
        rcases FS.mem_rename_elim hx with ⟨u, hu, hmem⟩ | ⟨hmem, _, _⟩
        · rw [hu] at hxpre
          exact hne_nn_nr (concat_prefix_iff.mp hxpre).symm
        · exact FS.not_below_of_not_exists hfresh2 x hmem hxpre
  have hs1look : s1.lookup (d ++ ["report_" ++ today ++ ".html"]) =
      some (.file cH) := by
    rw [hs1]
    have := FS.lookup_rename_moved fs (d ++ ["report.html"])
      (d ++ ["report_" ++ today ++ ".html"]) [] (.file cH)
      (by rw [List.append_nil]; exact hcH)
    rwa [List.append_nil] at this
  have hmove2 : s1.move (d ++ ["report_files"])
      (d ++ ["report_" ++ today ++ "_files"]) =
      .ok (s1.rename (d ++ ["report_files"])
        (d ++ ["report_" ++ today ++ "_files"])) :=
    FS.move_fresh _ _ _ (FS.pathExists_of_isdir hs1RD) hs1NRfresh
      (FS.parentOk_concat ⟨_, hs1look⟩ _)
  have hkey : renamePhase today (d ++ ["report.html"]) fs =
      .ok (s1.rename (d ++ ["report_files"])
        (d ++ ["report_" ++ today ++ "_files"])) := by
    simp only [renamePhase, hbe, List.dropLast_concat, hs0, hs3]
    rw [hmove1]
    simp only [Res.bind]
    rw [if_pos hres, hmove2]
  have hnrd : newResDirOf today (d ++ ["report.html"]) fs =
      some (d ++ ["report_" ++ today ++ "_files"]) := by
    simp only [newResDirOf, hbe, List.dropLast_concat, hs0, hs3]
    rw [if_pos hres]
  refine ⟨hkey, hnrd, ?_, ?_, ?_⟩
  · intro t
    rw [hkey]
    show (s1.rename (d ++ ["report_files"])
      (d ++ ["report_" ++ today ++ "_files"])).lookup
      (d ++ ["report_" ++ today ++ "_files"] ++ t) =
      fs.lookup (d ++ ["report_files"] ++ t)
    rw [FS.lookup_rename_fresh s1 _ _ t
      (FS.not_below_of_not_exists hs1NRfresh)]
    exact huntouchedRD t
  · rw [hkey]
    show (s1.rename (d ++ ["report_files"])
      (d ++ ["report_" ++ today ++ "_files"])).pathExists
      (d ++ ["report_files"]) = false
    rw [FS.pathExists_false_iff]
    have hgone : (s1.rename (d ++ ["report_files"])
        (d ++ ["report_" ++ today ++ "_files"])).lookup
        (d ++ ["report_files"]) = none :=
      FS.lookup_rename_srcGone _ _ _ _ List.prefix_rfl
        (fun hc => hne_nr_rd (concat_prefix_concat.mp hc))
    constructor
    · unfold FS.isfile
      rw [hgone]
    · rw [← Bool.not_eq_true]
      intro hdir
      rcases FS.isdir_iff.mp hdir with hdirm | ⟨x, hx, hxne, hxpre⟩
      · rw [hgone] at hdirm; cases hdirm
      · rcases FS.mem_rename_elim hx with ⟨u, hu, hmem⟩ | ⟨hmem, hne2, hnpre⟩
        · rw [hu] at hxpre
          exact hne_nr_rd (concat_prefix_iff.mp hxpre).symm
        · exact hnpre hxpre
  · rw [hkey]
    show (s1.rename (d ++ ["report_files"])
      (d ++ ["report_" ++ today ++ "_files"])).lookup
      (d ++ ["report_" ++ today ++ ".html"]) = some (.file cH)
    rw [FS.lookup_rename_untouched _ _ _ _
      (fun hc => (report_vhtml_ne_files today) ((concat_prefix_concat.mp hc).symm))
      (fun hc => hne_nn_nr ((concat_prefix_concat.mp hc).symm))]
    exact hs1look

/-- C3 (amended): Naming correspondence with detect-before-rename.  For every
run on a primary file `<d>/report.html` with companion directory
`<d>/report_files`, *provided neither versioned destination name already
exists* (the amendment forced by `C3_counterexample`), the relocation
succeeds; the resource flag recorded from the pre-rename state selects
`<d>/report_<today>_files` for the later store commit; every path of the
companion directory reappears at exactly the name-correlated location
`<d>/report_<today>_files/...` (so name-correlated links keep resolving); and
the old `report_files` name is gone. -/
theorem C3_naming_correspondence (today : String) (d : FPath) (fs : FS)
    (t : FPath)
    (hf : fs.isfile (d ++ ["report.html"]) = true)
    (hres : fs.isdir (d ++ ["report_files"]) = true)
    (hfresh1 : fs.pathExists (d ++ ["report_" ++ today ++ ".html"]) = false)
    (hfresh2 : fs.pathExists (d ++ ["report_" ++ today ++ "_files"]) = false) :
    (renamePhase today (d ++ ["report.html"]) fs).isOk = true ∧
    newResDirOf today (d ++ ["report.html"]) fs =
      some (d ++ ["report_" ++ today ++ "_files"]) ∧
    ((renamePhase today (d ++ ["report.html"]) fs).stateOf).lookup
      (d ++ ["report_" ++ today ++ "_files"] ++ t) =
      fs.lookup (d ++ ["report_files"] ++ t) ∧
    ((renamePhase today (d ++ ["report.html"]) fs).stateOf).pathExists
      (d ++ ["report_files"]) = false := by
  obtain ⟨cH, hcH⟩ := FS.isfile_iff.mp hf
  obtain ⟨h1, h2, h3, h4, _⟩ :=
    renamePhase_fresh today d fs cH hcH hres hfresh1 hfresh2
  exact ⟨by rw [h1]; rfl, h2, h3 t, h4⟩

set_option maxRecDepth 4000 in
/-- C3 counterexample to the claim as stated: when a directory named
`report_2024-06-01_files` is already present (left by an earlier same-day
run), `shutil.move` places the companion directory *inside* it, so after
relocation the companion's contents are NOT at the name-correlated
`report_2024-06-01_files/plot.png` but nested one level deeper — the claimed
naming correspondence fails without a freshness precondition. -/
theorem C3_counterexample :
    let fs : FS := ⟨[(["docs", "report.html"], .file "HTML"),
        (["docs", "report_files", "plot.png"], .file "PLOT"),
        (["docs", "report_2024-06-01_files", "old.png"], .file "OLD")]⟩
    let r := renamePhase "2024-06-01" ["docs", "report.html"] fs
    fs.isdir ["docs", "report_files"] = true ∧
    r.isOk = true ∧
    r.stateOf.lookup ["docs", "report_2024-06-01_files", "plot.png"] = none ∧
    r.stateOf.lookup
      ["docs", "report_2024-06-01_files", "report_files", "plot.png"] =
      some (.file "PLOT") := by
  decide

/-- Witness for the amended C3 at a concrete state. -/
theorem C3_naming_correspondence_witness :
    (renamePhase "2024-06-01" (["docs"] ++ ["report.html"])
      ⟨[(["docs", "report.html"], .file "HTML"),
        (["docs", "report_files", "plot.png"], .file "PLOT")]⟩).isOk = true ∧
    newResDirOf "2024-06-01" (["docs"] ++ ["report.html"])
      ⟨[(["docs", "report.html"], .file "HTML"),
        (["docs", "report_files", "plot.png"], .file "PLOT")]⟩ =
      some (["docs"] ++ ["report_" ++ "2024-06-01" ++ "_files"]) ∧
    ((renamePhase "2024-06-01" (["docs"] ++ ["report.html"])
      ⟨[(["docs", "report.html"], .file "HTML"),
        (["docs", "report_files", "plot.png"], .file "PLOT")]⟩).stateOf).lookup
      (["docs"] ++ ["report_" ++ "2024-06-01" ++ "_files"] ++ ["plot.png"]) =
      FS.lookup ⟨[(["docs", "report.html"], .file "HTML"),
        (["docs", "report_files", "plot.png"], .file "PLOT")]⟩
        (["docs"] ++ ["report_files"] ++ ["plot.png"]) ∧
    ((renamePhase "2024-06-01" (["docs"] ++ ["report.html"])
      ⟨[(["docs", "report.html"], .file "HTML"),
        (["docs", "report_files", "plot.png"], .file "PLOT")]⟩).stateOf).pathExists
      (["docs"] ++ ["report_files"]) = false :=
  C3_naming_correspondence "2024-06-01" ["docs"] _ ["plot.png"]
    (by decide) (by decide) (by decide) (by decide)

/-! ## Helper lemmas for the pre-commit failure analysis -/

theorem reportish_ne_archived (x : String) (h : x.data.head? = some 'r') :
    x ≠ "archived_reports" := by
  intro hc
  subst hc
  exact absurd h (by decide)

theorem head_of_prefix_cons {p : FPath} {a : Name} {q : FPath}
    (hne : p ≠ []) (h : p <+: (a :: q)) : p.head? = some a := by
  cases p with
  | nil => exact absurd rfl hne
  | cons b p' =>
    rw [List.head?_cons, (List.cons_prefix_cons.mp h).1]

theorem head_append_single (d : FPath) (x : Name) (rest : FPath) :
    (d ++ [x] ++ rest).head? = some x ∨
    (d ++ [x] ++ rest).head? = d.head? := by
  cases d with
  | nil => left; rfl
  | cons a d' => right; rfl

theorem dropLast_head {f : FPath} (hne : f ≠ []) :
    f.dropLast = [] ∨ f.dropLast.head? = f.head? := by
  cases f with
  | nil => exact absurd rfl hne
  | cons b f' =>
    cases f' with
    | nil => left; rfl
    | cons c f'' => right; rfl

theorem touched_path_not_store {f : FPath} {x : Name} {rest q : FPath}
    (hne : f ≠ []) (hhead : f.head? ≠ some "archived_reports")
    (hx : x ≠ "archived_reports") :
    ¬ (f.dropLast ++ [x] ++ rest) <+: ("archived_reports" :: q) := by
  intro hc
  have hp_ne : f.dropLast ++ [x] ++ rest ≠ [] := by simp
  have hh := head_of_prefix_cons hp_ne hc
  rcases head_append_single f.dropLast x rest with h1 | h1
  · rw [h1] at hh
    exact hx (by injection hh)
  · rw [h1] at hh
    rcases dropLast_head hne with h2 | h2
    · rw [h2] at hh; cases hh
    · rw [h2] at hh; exact hhead hh

theorem touched_single_not_store {f : FPath} {x : Name} {q : FPath}
    (hne : f ≠ []) (hhead : f.head? ≠ some "archived_reports")
    (hx : x ≠ "archived_reports") :
    ¬ (f.dropLast ++ [x]) <+: ("archived_reports" :: q) := by
  have h := @touched_path_not_store f x [] q hne hhead hx
  rwa [List.append_nil] at h

theorem f_not_store {f : FPath} {q : FPath} (hne : f ≠ [])
    (hhead : f.head? ≠ some "archived_reports") :
    ¬ f <+: ("archived_reports" :: q) :=
  fun hc => hhead (head_of_prefix_cons hne hc)

theorem FS.move_err_state {fs : FS} {src dst : FPath} {e : Err} {t : FS}
    (h : fs.move src dst = .err e t) : t = fs := by
  unfold FS.move at h
  split at h
  · cases h; rfl
  · split at h
    · split at h
      · cases h; rfl
      · cases h
    · split at h
      · cases h; rfl
      · split at h
        · cases h; rfl
        · cases h

theorem FS.move_ok_state {fs : FS} {src dst : FPath} {s : FS}
    (h : fs.move src dst = .ok s) :
    s = fs.rename src dst ∨ s = fs.rename src (dst ++ [basename src]) := by
  unfold FS.move at h
  split at h
  · cases h
  · split at h
    · split at h
      · cases h
      · cases h; right; rfl
    · split at h
      · cases h
      · split at h
        · cases h
        · cases h; left; rfl

theorem FS.copyfile_err_state {fs : FS} {src dst : FPath} {e : Err} {t : FS}
    (h : fs.copyfile src dst = .err e t) : t = fs := by
  unfold FS.copyfile FS.writeFile at h
  split at h
  · split at h
    · cases h; rfl
    · split at h
      · cases h; rfl
      · cases h
  · cases h; rfl
  · split at h
    · cases h; rfl
    · cases h; rfl

/-- C4 (amended): Abort-before-store-mutation holds for the phase *preceding*
the store commit.  For every watched artifact whose trigger path lies outside
the store, if any filesystem operation of the pre-commit phase (the primary
rename, the resource-directory rename, or the `report-latest` copy) raises,
then the whole run fails with exactly that error, and at the moment of failure
the Persistent Archive Store subtree is untouched: every lookup under
`archived_reports/` is unchanged.  (The unamended claim — that *any* operation
failure aborts before store mutation — is refuted by `C4_counterexample`:
the `report.qmd` copy of STEP 9 fails only after STEP 5 has already committed
to the store.) -/
theorem C4_precommit_failure_aborts (today : String) (f : FPath) (fs : FS)
    (q : FPath) (e : Err) (s' : FS)
    (hw : splitext (basename f) = ("report", ".html"))
    (hex : fs.pathExists f = true)
    (hstore : ¬ (["archived_reports"] : FPath) <+: f)
    (hpre : preCommitPhase today f fs = .err e s') :
    processFile today f fs = .err e s' ∧
    s'.lookup ("archived_reports" :: q) = fs.lookup ("archived_reports" :: q) := by
  have hne : f ≠ [] := by
    intro hc; rw [hc] at hw; exact absurd hw (by decide)
  have hhead : f.head? ≠ some "archived_reports" := by
    intro hc
    cases f with
    | nil => exact hne rfl
    | cons b f' =>
      apply hstore
      rw [List.head?_cons] at hc
      injection hc with hc
      subst hc
      exact List.cons_prefix_cons.mpr ⟨rfl, List.nil_prefix⟩
  constructor
  · simp only [processFile, hw, hex, preQmdPhase, hpre, Res.bind]
    simp
  · revert hpre
    unfold preCommitPhase renamePhase
    simp only [hw]
    cases hm1 : fs.move f (f.dropLast ++ ["report" ++ "_" ++ today ++ ".html"]) with
    | err e1 t1 =>
      intro hpre
      simp only [Res.bind] at hpre
      injection hpre with h1 h2
      subst h2
      rw [FS.move_err_state hm1]
    | ok s1 =>
      intro hpre
      simp only [Res.bind] at hpre
      have st1 : s1.lookup ("archived_reports" :: q) =
          fs.lookup ("archived_reports" :: q) := by
        rcases FS.move_ok_state hm1 with hs1 | hs1 <;> rw [hs1]
        · exact FS.lookup_rename_untouched _ _ _ _ (f_not_store hne hhead)
            (touched_single_not_store hne hhead (reportish_ne_archived _ rfl))
        · exact FS.lookup_rename_untouched _ _ _ _ (f_not_store hne hhead)
            (touched_path_not_store hne hhead (reportish_ne_archived _ rfl))
      by_cases hdir : fs.isdir (f.dropLast ++ ["report" ++ "_files"]) = true
      · rw [if_pos hdir] at hpre
        cases hm2 : s1.move (f.dropLast ++ ["report" ++ "_files"])
            (f.dropLast ++ ["report" ++ "_" ++ today ++ "_files"]) with
        | err e2 t2 =>
          rw [hm2] at hpre
          simp only [Res.bind] at hpre
          injection hpre with h1 h2
          subst h2
          rw [FS.move_err_state hm2]
          exact st1
        | ok s2 =>
          rw [hm2] at hpre
          simp only [Res.bind] at hpre
          have st2 : s2.lookup ("archived_reports" :: q) =
              s1.lookup ("archived_reports" :: q) := by
            rcases FS.move_ok_state hm2 with hs2 | hs2 <;> rw [hs2]
            · exact FS.lookup_rename_untouched _ _ _ _
                (touched_single_not_store hne hhead (reportish_ne_archived _ rfl))
                (touched_single_not_store hne hhead (reportish_ne_archived _ rfl))
            · exact FS.lookup_rename_untouched _ _ _ _
                (touched_single_not_store hne hhead (reportish_ne_archived _ rfl))
                (touched_path_not_store hne hhead (reportish_ne_archived _ rfl))
          cases hm3 : s2.copyfile
              (f.dropLast ++ ["report" ++ "_" ++ today ++ ".html"])
              (f.dropLast ++ ["report" ++ "-latest" ++ ".html"]) with
          | err e3 t3 =>
            rw [hm3] at hpre
            injection hpre with h1 h2
            subst h2
            rw [FS.copyfile_err_state hm3, st2]
            exact st1
          | ok s3 =>
            rw [hm3] at hpre
            cases hpre
      · rw [if_neg hdir] at hpre
        simp only [Res.bind] at hpre
        cases hm3 : s1.copyfile
            (f.dropLast ++ ["report" ++ "_" ++ today ++ ".html"])
            (f.dropLast ++ ["report" ++ "-latest" ++ ".html"]) with
        | err e3 t3 =>
          rw [hm3] at hpre
          injection hpre with h1 h2
          subst h2
          rw [FS.copyfile_err_state hm3]
          exact st1
        | ok s3 =>
          rw [hm3] at hpre
          cases hpre

set_option maxRecDepth 8000 in
/-- C4 counterexample to the claim as stated: with `report.qmd` absent, the
STEP 9 `shutil.copyfile` fails — a filesystem operation failure — yet at that
moment the store commit of STEP 5 has already happened: the run fails while
`archived_reports/report_2024-06-01.html` exists in the failure state though
it did not exist before the run.  So not every operation failure aborts before
store mutation. -/
theorem C4_counterexample :
    let fs0 : FS := ⟨[(["docs", "report.html"], .file "HTML"),
        (["docs", "report_files", "plot.png"], .file "PLOT"),
        (["archive"], .dir)]⟩
    let r := run "2024-06-01" [["docs", "report.html"]] fs0
    r.isOk = false ∧
    fs0.isfile ["archived_reports", "report_2024-06-01.html"] = false ∧
    r.stateOf.isfile ["archived_reports", "report_2024-06-01.html"] = true := by
  decide

set_option maxRecDepth 4000 in
/-- Witness for the amended C4: a concrete pre-commit failure (the versioned
primary name is occupied by a directory whose slot is taken) fails the whole
run with that error while the store entry `archived_reports/old.html` is
untouched. -/
theorem C4_precommit_failure_aborts_witness :
    processFile "2024-06-01" ["docs", "report.html"]
      ⟨[(["docs", "report.html"], .file "H"),
        (["docs", "report_2024-06-01.html", "report.html"], .file "X"),
        (["archived_reports", "old.html"], .file "OLD")]⟩ =
      .err (.fileExists ["docs", "report_2024-06-01.html", "report.html"])
        ⟨[(["docs", "report.html"], .file "H"),
          (["docs", "report_2024-06-01.html", "report.html"], .file "X"),
          (["archived_reports", "old.html"], .file "OLD")]⟩ ∧
    FS.lookup ⟨[(["docs", "report.html"], .file "H"),
        (["docs", "report_2024-06-01.html", "report.html"], .file "X"),
        (["archived_reports", "old.html"], .file "OLD")]⟩
      ("archived_reports" :: ["old.html"]) =
    FS.lookup ⟨[(["docs", "report.html"], .file "H"),
        (["docs", "report_2024-06-01.html", "report.html"], .file "X"),
        (["archived_reports", "old.html"], .file "OLD")]⟩
      ("archived_reports" :: ["old.html"]) :=
  C4_precommit_failure_aborts "2024-06-01" ["docs", "report.html"] _
    ["old.html"] _ _ (by decide) (by decide) (by decide) (by decide)

/-! ## Helper lemmas for the `report.qmd` dependency -/

theorem FS.isdir_cons_any (p : FPath) (en : Entry) (l : List (FPath × Entry))
    (x : FPath) (hne : p ≠ x) (hnp : ¬ x <+: p) :
    FS.isdir ⟨(p, en) :: l⟩ x = FS.isdir ⟨l⟩ x := by
  unfold FS.isdir
  rw [FS.lookup_mk_cons, if_neg hne]
  simp only [List.any_cons]
  have hfalse : (decide (x ≠ (p, en).1) && decide (x <+: (p, en).1)) = false := by
    simp [hnp]
  rw [hfalse, Bool.false_or]

theorem FS.isdir_makedirs_stateOf (fs : FS) (p x : FPath)
    (hne : p ≠ x) (hnp : ¬ x <+: p) :
    ((fs.makedirs p).stateOf).isdir x = fs.isdir x := by
  unfold FS.makedirs
  split
  · rfl
  · split
    · rfl
    · exact FS.isdir_cons_any p .dir fs.entries x hne hnp

theorem FS.makedirs_ok {fs : FS} {p : FPath} (h : fs.isfile p = false) :
    fs.makedirs p = .ok ((fs.makedirs p).stateOf) := by
  unfold FS.makedirs
  rw [if_neg (by rw [h]; simp)]
  split <;> rfl

/-- C10: Implicit hard dependency on `report.qmd`.  For every run that has
relocated the watched artifact and updated the store (STEPS 1–8 succeeded,
yielding `fs8`, which holds the renamed primary and the store commit), when
`report.qmd` does not exist in the working directory the unconditional STEP 9
copy raises `FileNotFoundError` for `report.qmd` and the whole run fails with
exactly that error — and the failure state still contains the already-renamed
primary file and the already-mutated store entry, while the index rebuild and
publish synchronization never run. -/
theorem C10_qmd_dependency (today : String) (f : FPath) (fs fs8 : FS)
    (hw : splitext (basename f) = ("report", ".html"))
    (hex : fs.pathExists f = true)
    (h8 : preQmdPhase today f fs = .ok fs8)
    (hq : fs8.isfile ["report.qmd"] = false)
    (hqd : fs8.isdir ["report.qmd"] = false)
    (haq : fs8.isfile ["archive_qmd"] = false)
    (hnn : fs8.isfile (f.dropLast ++ ["report_" ++ today ++ ".html"]) = true)
    (had : fs8.isfile ["archived_reports", "report_" ++ today ++ ".html"] = true) :
    processFile today f fs =
      .err (.fileNotFound ["report.qmd"])
        ((fs8.makedirs ["archive_qmd"]).stateOf) ∧
    ((fs8.makedirs ["archive_qmd"]).stateOf).isfile
      (f.dropLast ++ ["report_" ++ today ++ ".html"]) = true ∧
    ((fs8.makedirs ["archive_qmd"]).stateOf).isfile
      ["archived_reports", "report_" ++ today ++ ".html"] = true := by
  have hqmd : stepQmd today fs8 = .err (.fileNotFound ["report.qmd"])
      ((fs8.makedirs ["archive_qmd"]).stateOf) := by
    unfold stepQmd
    rw [FS.makedirs_ok haq]
    simp only [Res.bind]
    have hlook : ((fs8.makedirs ["archive_qmd"]).stateOf).lookup ["report.qmd"]
        = none := by
      rw [FS.lookup_makedirs_stateOf _ _ _ (by decide)]
      exact FS.lookup_eq_none_of_not_exists
        (FS.pathExists_false_iff.mpr ⟨hq, hqd⟩)
    have hdir : ((fs8.makedirs ["archive_qmd"]).stateOf).isdir ["report.qmd"]
        = false := by
      rw [FS.isdir_makedirs_stateOf _ _ _ (by decide) (by decide)]
      exact hqd
    unfold FS.copyfile
    rw [hlook, if_neg (by rw [hdir]; simp)]
    rfl
  refine ⟨?_, FS.isfile_makedirs_pres _ _ _ hnn,
    FS.isfile_makedirs_pres _ _ _ had⟩
  simp only [processFile, hw, hex, h8, Res.bind, hqmd]
  simp

set_option maxRecDepth 8000 in
/-- Witness for C10 at a concrete state without `report.qmd`: the relocation
and store stages succeed, then the run fails with `FileNotFoundError` on
`report.qmd` while the renamed primary and the store commit are present in the
failure state. -/
theorem C10_qmd_dependency_witness :
    processFile "2024-06-01" ["docs", "report.html"]
      ⟨[(["docs", "report.html"], .file "HTML"),
        (["docs", "report_files", "plot.png"], .file "PLOT")]⟩ =
      .err (.fileNotFound ["report.qmd"])
        (((((preQmdPhase "2024-06-01" ["docs", "report.html"]
          ⟨[(["docs", "report.html"], .file "HTML"),
            (["docs", "report_files", "plot.png"], .file "PLOT")]⟩).stateOf)).makedirs
          ["archive_qmd"]).stateOf) ∧
    (((((preQmdPhase "2024-06-01" ["docs", "report.html"]
          ⟨[(["docs", "report.html"], .file "HTML"),
            (["docs", "report_files", "plot.png"], .file "PLOT")]⟩).stateOf)).makedirs
          ["archive_qmd"]).stateOf).isfile
      ((["docs", "report.html"] : FPath).dropLast ++
        ["report_" ++ "2024-06-01" ++ ".html"]) = true ∧
    (((((preQmdPhase "2024-06-01" ["docs", "report.html"]
          ⟨[(["docs", "report.html"], .file "HTML"),
            (["docs", "report_files", "plot.png"], .file "PLOT")]⟩).stateOf)).makedirs
          ["archive_qmd"]).stateOf).isfile
      ["archived_reports", "report_" ++ "2024-06-01" ++ ".html"] = true :=
  C10_qmd_dependency "2024-06-01" ["docs", "report.html"]
    ⟨[(["docs", "report.html"], .file "HTML"),
      (["docs", "report_files", "plot.png"], .file "PLOT")]⟩
    ((preQmdPhase "2024-06-01" ["docs", "report.html"]
      ⟨[(["docs", "report.html"], .file "HTML"),
        (["docs", "report_files", "plot.png"], .file "PLOT")]⟩).stateOf)
    (by decide) (by decide) (by decide) (by decide) (by decide) (by decide)
    (by decide) (by decide)

/-! ## Helper lemmas for the end-to-end postcondition analysis -/

theorem not_cons_prefix_cons {a b : Name} {s t : FPath} (h : a ≠ b) :
    ¬ (a :: s) <+: (b :: t) :=
  fun hc => h (List.cons_prefix_cons.mp hc).1

theorem cons_ne_cons {a b : Name} {s t : FPath} (h : a ≠ b) :
    (a :: s) ≠ (b :: t) := by
  intro hc
  injection hc with h1 h2
  exact h h1

theorem cons_cons_prefix_ne {a b c : Name} {s t : FPath} (h : b ≠ c) :
    ¬ (a :: b :: s) <+: (a :: c :: t) :=
  fun hc => h (List.cons_prefix_cons.mp (List.cons_prefix_cons.mp hc).2).1

theorem cons_cons_ne {a b c : Name} {s t : FPath} (h : b ≠ c) :
    (a :: b :: s) ≠ (a :: c :: t) := by
  intro hc
  injection hc with h1 h2
  injection h2 with h3 h4
  exact h h3

theorem not_prefix_of_longer {p q : FPath} (h : q.length < p.length) :
    ¬ p <+: q :=
  fun hc => absurd hc.length_le (by omega)

theorem head_r_ne_archive (x : String) (h : x.data.head? = some 'r') :
    x ≠ "archive" := by
  intro hc
  subst hc
  exact absurd h (by decide)

/-- Names of the shape `report_<t>.html` differ from `report-latest.html`: the
seventh character is an underscore on the left and a dash on the right. -/
theorem report_v_ne_latest (t : String) :
    "report_" ++ t ++ ".html" ≠ "report-latest.html" := by
  intro h
  rw [string_eq_iff_data] at h
  have h2 : ('r' :: 'e' :: 'p' :: 'o' :: 'r' :: 't' :: '_' ::
      (t.data ++ ".html".data)) =
      ('r' :: 'e' :: 'p' :: 'o' :: 'r' :: 't' :: '-' ::
      "latest.html".data) := h
  have h3 := congrArg (fun l : List Char => l.get? 6) h2
  have h4 : (some '_' : Option Char) = some '-' := h3
  simp at h4

theorem publish_pair_prefix_iff {m n : Name} :
    ((["docs", "archive", m] : FPath) <+: ["docs", "archive", n]) ↔ m = n := by
  constructor
  · intro h
    exact (List.cons_prefix_cons.mp
      (List.cons_prefix_cons.mp (List.cons_prefix_cons.mp h).2).2).1
  · rintro rfl
    exact List.prefix_rfl

theorem prefix_singleton_cases {u : FPath} {b : Name} (h : u <+: [b]) :
    u = [] ∨ u = [b] := by
  obtain ⟨w, hw⟩ := h
  cases u with
  | nil => exact Or.inl rfl
  | cons a u2 =>
    have hw2 : a :: (u2 ++ w) = [b] := by simpa using hw
    injection hw2 with h1 h2
    cases u2 with
    | nil => right; rw [h1]
    | cons a2 u3 => simp at h2

theorem prefix_concat_eq {P dst : FPath} {b : Name}
    (h1 : ¬ P <+: dst) (h2 : P <+: dst ++ [b]) : P = dst ++ [b] := by
  rcases List.prefix_or_prefix_of_prefix h2 (List.prefix_append dst [b]) with hc | hc
  · exact absurd hc h1
  · obtain ⟨u, hu⟩ := hc
    have hup : u <+: [b] := by
      rw [← hu] at h2
      exact (List.prefix_append_right_inj dst).mp h2
    rcases prefix_singleton_cases hup with rfl | rfl
    · rw [List.append_nil] at hu
      subst hu
      exact absurd List.prefix_rfl h1
    · exact hu.symm

theorem FS.writeFile_ok_lookup {fs : FS} {p : FPath} {c : String} {s : FS}
    (h : fs.writeFile p c = .ok s) : s.lookup p = some (.file c) := by
  unfold FS.writeFile at h
  split at h
  · cases h
  · split at h
    · cases h
    · cases h
      rw [FS.lookup_mk_cons, if_pos rfl]

/-- Characterisation of "no directory at `P`": no directory marker and no
entry strictly below. -/
theorem FS.isdir_false_iff {fs : FS} {P : FPath} :
    fs.isdir P = false ↔
      (fs.lookup P ≠ some .dir ∧
       ∀ x ∈ fs.entries, P = x.1 ∨ ¬ P <+: x.1) := by
  rw [← Bool.not_eq_true, FS.isdir_iff]
  push_neg
  constructor
  · rintro ⟨h1, h2⟩
    refine ⟨h1, ?_⟩
    intro x hx
    by_cases hPx : P = x.1
    · exact Or.inl hPx
    · exact Or.inr (h2 x hx hPx)
  · rintro ⟨h1, h2⟩
    refine ⟨h1, ?_⟩
    intro x hx hne
    rcases h2 x hx with hc | hc
    · exact absurd hc hne
    · exact hc

theorem FS.isdir_false_writeFile (fs : FS) (p : FPath) (c : String) (P : FPath)
    (hp : P = p ∨ ¬ P <+: p) (h : fs.isdir P = false) :
    ((fs.writeFile p c).stateOf).isdir P = false := by
  unfold FS.writeFile
  split
  · exact h
  · split
    · exact h
    · simp only [Res.stateOf]
      rw [FS.isdir_false_iff] at h ⊢
      obtain ⟨hl, hm⟩ := h
      constructor
      · intro he
        rw [FS.lookup_mk_cons] at he
        split at he
        · cases he
        · rw [FS.lookup_removeFile] at he
          split at he
          · cases he
          · exact hl he
      · intro x hx
        rcases List.mem_cons.mp hx with rfl | hx2
        · exact hp
        · exact hm x (List.mem_of_mem_filter hx2)

theorem FS.isdir_false_copyfile (fs : FS) (src dst : FPath) (P : FPath)
    (hp : P = dst ∨ ¬ P <+: dst) (h : fs.isdir P = false) :
    ((fs.copyfile src dst).stateOf).isdir P = false := by
  unfold FS.copyfile
  split
  · exact FS.isdir_false_writeFile _ _ _ _ hp h
  · exact h
  · split <;> exact h

theorem FS.isdir_false_copy (fs : FS) (src dst : FPath) (P : FPath)
    (hp : ¬ P <+: dst) (h : fs.isdir P = false) :
    ((fs.copy src dst).stateOf).isdir P = false := by
  unfold FS.copy
  by_cases hd : fs.isdir dst
  · simp only [hd, if_true]
    refine FS.isdir_false_copyfile _ _ _ _ ?_ h
    by_cases hP : P <+: dst ++ [basename src]
    · exact Or.inl (prefix_concat_eq hp hP)
    · exact Or.inr hP
  · simp only [hd, if_false]
    exact FS.isdir_false_copyfile _ _ _ _ (Or.inr hp) h

theorem FS.isdir_false_makedirs (fs : FS) (p : FPath) (P : FPath)
    (hp : ¬ P <+: p) (h : fs.isdir P = false) :
    ((fs.makedirs p).stateOf).isdir P = false := by
  unfold FS.makedirs
  split
  · exact h
  · split
    · exact h
    · simp only [Res.stateOf]
      rw [FS.isdir_false_iff] at h ⊢
      obtain ⟨hl, hm⟩ := h
      constructor
      · intro he
        rw [FS.lookup_mk_cons] at he
        split at he
        · rename_i hpP
          exact absurd List.prefix_rfl (hpP ▸ hp)
        · exact hl he
      · intro x hx
        rcases List.mem_cons.mp hx with rfl | hx2
        · exact Or.inr hp
        · exact hm x hx2

theorem FS.isdir_false_rmtree (fs : FS) (p : FPath) (P : FPath)
    (h : fs.isdir P = false) :
    ((fs.rmtree p).stateOf).isdir P = false := by
  unfold FS.rmtree
  split
  · simp only [Res.stateOf]
    rw [FS.isdir_false_iff] at h ⊢
    obtain ⟨hl, hm⟩ := h
    constructor
    · intro he
      rw [FS.lookup_removeTree] at he
      split at he
      · cases he
      · exact hl he
    · intro x hx
      exact hm x (List.mem_of_mem_filter hx)
  · split <;> exact h

theorem FS.isdir_false_copytree (fs : FS) (src dst : FPath) (P : FPath)
    (h1 : ¬ P <+: dst) (h2 : ¬ dst <+: P) (h : fs.isdir P = false) :
    ((fs.copytree src dst).stateOf).isdir P = false := by
  unfold FS.copytree
  split
  · exact h
  · split
    · exact h
    · simp only [Res.stateOf, List.cons_append]
      rw [FS.isdir_false_iff] at h ⊢
      obtain ⟨hl, hm⟩ := h
      constructor
      · intro he
        rw [FS.lookup_mk_cons,
          if_neg (fun hq : dst = P => h2 (hq ▸ List.prefix_rfl)),
          FS.lookup_append,
          FS.lookup_filterMap_none
            (fun e => if decide (src <+: e.1) && decide (e.1 ≠ src) then
              some (dst ++ e.1.drop src.length, e.2) else none)
            (by
              intro e x hx
              simp only [] at hx
              split at hx
              · cases hx
                intro hq
                exact h2 (hq ▸ List.prefix_append dst _)
              · cases hx)] at he
        exact hl he
      · intro x hx
        rcases List.mem_cons.mp hx with rfl | hx2
        · exact Or.inr h1
        · rcases List.mem_append.mp hx2 with hfm | hold
          · rw [List.mem_filterMap] at hfm
            obtain ⟨a, ha, hga⟩ := hfm
            right
            intro hpre
            split at hga
            · cases hga
              rcases List.prefix_or_prefix_of_prefix hpre
                (List.prefix_append dst _) with hc | hc
              · exact h1 hc
              · exact h2 hc
            · cases hga
          · exact hm x hold

theorem FS.isdir_false_rename (fs : FS) (src dst : FPath) (P : FPath)
    (h1 : ¬ P <+: dst) (h2 : ¬ dst <+: P) (h : fs.isdir P = false) :
    (fs.rename src dst).isdir P = false := by
  rw [FS.isdir_false_iff] at h ⊢
  obtain ⟨hl, hm⟩ := h
  constructor
  · intro he
    simp only [FS.rename] at he
    rw [FS.lookup_append, FS.lookup_renameMap_notPrefix _ _ _ _ h2] at he
    have hk := FS.lookup_filter_key (fs.removeFile dst).entries
        (fun x => decide (¬ src <+: x)) P
    simp only [Option.orElse] at he
    rw [show (fun e : FPath × Entry => decide (¬ src <+: e.1)) =
        (fun e : FPath × Entry => (fun x => decide (¬ src <+: x)) e.1) from rfl,
      hk] at he
    split at he
    · rw [FS.lookup_removeFile] at he
      split at he
      · cases he
      · exact hl he
    · cases he
  · intro x hx
    rcases FS.mem_rename_elim hx with ⟨t, hxt, _⟩ | ⟨hmem, _, _⟩
    · right
      intro hpre
      rw [hxt] at hpre
      rcases List.prefix_or_prefix_of_prefix hpre
        (List.prefix_append dst t) with hc | hc
      · exact h1 hc
      · exact h2 hc
    · exact hm x hmem

theorem Res.isdir_false_bind {r : Res} {f : FS → Res} {P : FPath}
    (h1 : (r.stateOf).isdir P = false)
    (h2 : ∀ s, r = .ok s → ((f s).stateOf).isdir P = false) :
    ((r.bind f).stateOf).isdir P = false := by
  cases r with
  | ok s => exact h2 s rfl
  | err e s => exact h1

/-! ## Helper lemmas: each store stage leaves unrelated lookups unchanged -/

theorem rmtreeIf_lookup_pres (fs : FS) (p : FPath) (q : FPath)
    (hp : ¬ p <+: q) :
    (((if fs.pathExists p then fs.rmtree p else .ok fs)).stateOf).lookup q =
      fs.lookup q := by
  split
  · exact FS.lookup_rmtree_stateOf _ _ _ hp
  · rfl

theorem rmtreeIf_isdir_false (fs : FS) (p : FPath) (P : FPath)
    (h : fs.isdir P = false) :
    (((if fs.pathExists p then fs.rmtree p else .ok fs)).stateOf).isdir P =
      false := by
  split
  · exact FS.isdir_false_rmtree _ _ _ h
  · exact h

theorem stepCommit_lookup_pres (new_name : FPath) (fs : FS) (q : FPath)
    (h1 : (["archived_reports"] : FPath) ≠ q)
    (h2 : ¬ (["archived_reports", basename new_name] : FPath) <+: q) :
    ((stepCommit new_name fs).stateOf).lookup q = fs.lookup q := by
  unfold stepCommit
  refine Res.lookup_bind (FS.lookup_makedirs_stateOf _ _ _ h1) ?_
  intro s hs
  have hh := FS.lookup_makedirs_stateOf fs ["archived_reports"] q h1
  rw [hs] at hh
  rw [FS.lookup_copy_stateOf _ _ _ _ h2]
  exact hh

theorem stepCommit_isdir_false (new_name : FPath) (fs : FS) (P : FPath)
    (h1 : ¬ P <+: (["archived_reports"] : FPath))
    (h2 : ¬ P <+: (["archived_reports", basename new_name] : FPath))
    (h : fs.isdir P = false) :
    ((stepCommit new_name fs).stateOf).isdir P = false := by
  unfold stepCommit
  refine Res.isdir_false_bind (FS.isdir_false_makedirs _ _ _ h1 h) ?_
  intro s hs
  have hh := FS.isdir_false_makedirs fs ["archived_reports"] P h1 h
  rw [hs] at hh
  exact FS.isdir_false_copy _ _ _ _ h2 hh

theorem stepCharts_lookup_pres (fs : FS) (q : FPath)
    (hq : ¬ (["archived_reports", "charts"] : FPath) <+: q) :
    ((stepCharts fs).stateOf).lookup q = fs.lookup q := by
  unfold stepCharts
  split
  · refine Res.lookup_bind (rmtreeIf_lookup_pres _ _ _ hq) ?_
    intro s hs
    have hh := rmtreeIf_lookup_pres fs ["archived_reports", "charts"] q hq
    rw [hs] at hh
    rw [FS.lookup_copytree_stateOf _ _ _ _ hq]
    exact hh
  · rfl

theorem stepCharts_isdir_false (fs : FS) (P : FPath)
    (h1 : ¬ P <+: (["archived_reports", "charts"] : FPath))
    (h2 : ¬ (["archived_reports", "charts"] : FPath) <+: P)
    (h : fs.isdir P = false) :
    ((stepCharts fs).stateOf).isdir P = false := by
  unfold stepCharts
  split
  · refine Res.isdir_false_bind (rmtreeIf_isdir_false _ _ _ h) ?_
    intro s hs
    have hh := rmtreeIf_isdir_false fs ["archived_reports", "charts"] P h
    rw [hs] at hh
    exact FS.isdir_false_copytree _ _ _ _ h1 h2 hh
  · exact h

theorem stepSiteLibs_lookup_pres (fs : FS) (q : FPath)
    (hq : ¬ (["archived_reports", "site_libs"] : FPath) <+: q) :
    ((stepSiteLibs fs).stateOf).lookup q = fs.lookup q := by
  unfold stepSiteLibs
  split
  · refine Res.lookup_bind (rmtreeIf_lookup_pres _ _ _ hq) ?_
    intro s hs
    have hh := rmtreeIf_lookup_pres fs ["archived_reports", "site_libs"] q hq
    rw [hs] at hh
    rw [FS.lookup_copytree_stateOf _ _ _ _ hq]
    exact hh
  · rfl

theorem stepSiteLibs_isdir_false (fs : FS) (P : FPath)
    (h1 : ¬ P <+: (["archived_reports", "site_libs"] : FPath))
    (h2 : ¬ (["archived_reports", "site_libs"] : FPath) <+: P)
    (h : fs.isdir P = false) :
    ((stepSiteLibs fs).stateOf).isdir P = false := by
  unfold stepSiteLibs
  split
  · refine Res.isdir_false_bind (rmtreeIf_isdir_false _ _ _ h) ?_
    intro s hs
    have hh := rmtreeIf_isdir_false fs ["archived_reports", "site_libs"] P h
    rw [hs] at hh
    exact FS.isdir_false_copytree _ _ _ _ h1 h2 hh
  · exact h

theorem stepResources_lookup_pres (nrd : Option FPath) (fs : FS) (q : FPath)
    (hp : ∀ d, nrd = some d →
      ¬ (["archived_reports", basename d] : FPath) <+: q) :
    ((stepResources nrd fs).stateOf).lookup q = fs.lookup q := by
  rcases nrd with _ | d
  · rfl
  · have hpd := hp d rfl
    simp only [stepResources]
    split
    · refine Res.lookup_bind (rmtreeIf_lookup_pres _ _ _ hpd) ?_
      intro s hs
      have hh := rmtreeIf_lookup_pres fs ["archived_reports", basename d] q hpd
      rw [hs] at hh
      rw [FS.lookup_copytree_stateOf _ _ _ _ hpd]
      exact hh
    · rfl

theorem stepResources_isdir_false (nrd : Option FPath) (fs : FS) (P : FPath)
    (hp : ∀ d, nrd = some d →
      ¬ P <+: (["archived_reports", basename d] : FPath) ∧
      ¬ (["archived_reports", basename d] : FPath) <+: P)
    (h : fs.isdir P = false) :
    ((stepResources nrd fs).stateOf).isdir P = false := by
  rcases nrd with _ | d
  · exact h
  · obtain ⟨hpd1, hpd2⟩ := hp d rfl
    simp only [stepResources]
    split
    · refine Res.isdir_false_bind (rmtreeIf_isdir_false _ _ _ h) ?_
      intro s hs
      have hh := rmtreeIf_isdir_false fs ["archived_reports", basename d] P h
      rw [hs] at hh
      exact FS.isdir_false_copytree _ _ _ _ hpd1 hpd2 hh
    · exact h

theorem stepQmd_lookup_pres (today : String) (fs : FS) (q : FPath)
    (h1 : (["archive_qmd"] : FPath) ≠ q)
    (h2 : (["archive_qmd", "report_" ++ today ++ ".qmd"] : FPath) ≠ q) :
    ((stepQmd today fs).stateOf).lookup q = fs.lookup q := by
  unfold stepQmd
  refine Res.lookup_bind (FS.lookup_makedirs_stateOf _ _ _ h1) ?_
  intro s hs
  have hh := FS.lookup_makedirs_stateOf fs ["archive_qmd"] q h1
  rw [hs] at hh
  rw [FS.lookup_copyfile_stateOf _ _ _ _ h2]
  exact hh

theorem stepQmd_isdir_false (today : String) (fs : FS) (P : FPath)
    (h1 : ¬ P <+: (["archive_qmd"] : FPath))
    (h2 : ¬ P <+: (["archive_qmd", "report_" ++ today ++ ".qmd"] : FPath))
    (h : fs.isdir P = false) :
    ((stepQmd today fs).stateOf).isdir P = false := by
  unfold stepQmd
  refine Res.isdir_false_bind (FS.isdir_false_makedirs _ _ _ h1 h) ?_
  intro s hs
  have hh := FS.isdir_false_makedirs fs ["archive_qmd"] P h1 h
  rw [hs] at hh
  exact FS.isdir_false_copyfile _ _ _ _ (Or.inr h2) hh

theorem stepIndex_lookup_pres (fs : FS) (q : FPath)
    (h : (["archive", "index.qmd"] : FPath) ≠ q) :
    ((stepIndex fs).stateOf).lookup q = fs.lookup q := by
  unfold stepIndex update_archive_qmd
  split
  · exact FS.lookup_writeFile_stateOf _ _ _ _ h
  · rfl

theorem stepIndex_isdir_false (fs : FS) (P : FPath)
    (h1 : ¬ P <+: (["archive", "index.qmd"] : FPath))
    (h : fs.isdir P = false) :
    ((stepIndex fs).stateOf).isdir P = false := by
  unfold stepIndex update_archive_qmd
  split
  · exact FS.isdir_false_writeFile _ _ _ _ (Or.inr h1) h
  · exact h

theorem publishItem_lookup_pres (item : Name) (fs : FS) (q : FPath)
    (h : ¬ (["docs", "archive", item] : FPath) <+: q) :
    ((publishItem item fs).stateOf).lookup q = fs.lookup q := by
  simp only [publishItem]
  split
  · exact FS.lookup_copy_stateOf _ _ _ _ h
  · split
    · refine Res.lookup_bind (rmtreeIf_lookup_pres _ _ _ h) ?_
      intro s hs
      have hh := rmtreeIf_lookup_pres fs ["docs", "archive", item] q h
      rw [hs] at hh
      rw [FS.lookup_copytree_stateOf _ _ _ _ h]
      exact hh
    · rfl

theorem publishItem_isdir_false (item : Name) (fs : FS) (P : FPath)
    (h1 : ¬ P <+: (["docs", "archive", item] : FPath))
    (h2 : ¬ (["docs", "archive", item] : FPath) <+: P)
    (h : fs.isdir P = false) :
    ((publishItem item fs).stateOf).isdir P = false := by
  simp only [publishItem]
  split
  · exact FS.isdir_false_copy _ _ _ _ h1 h
  · split
    · refine Res.isdir_false_bind (rmtreeIf_isdir_false _ _ _ h) ?_
      intro s hs
      have hh := rmtreeIf_isdir_false fs ["docs", "archive", item] P h
      rw [hs] at hh
      exact FS.isdir_false_copytree _ _ _ _ h1 h2 hh
    · exact h

theorem publishItems_lookup_pres (items : List Name) :
    ∀ (fs : FS) (q : FPath),
      (∀ k ∈ items, ¬ (["docs", "archive", k] : FPath) <+: q) →
      ((publishItems items fs).stateOf).lookup q = fs.lookup q := by
  induction items with
  | nil => intro fs q hq; rfl
  | cons i is ih =>
    intro fs q hq
    show ((publishItem i fs).bind (publishItems is)).stateOf.lookup q = _
    refine Res.lookup_bind
      (publishItem_lookup_pres _ _ _ (hq i (List.mem_cons_self i is))) ?_
    intro s hs
    have h1 := publishItem_lookup_pres i fs q (hq i (List.mem_cons_self i is))
    rw [hs] at h1
    rw [ih s q (fun k hk => hq k (List.mem_cons_of_mem i hk))]
    exact h1

/-! ## Helper lemmas: the trigger-list fold and the publish delivery -/

theorem processFile_nonwatched (today : String) (f : FPath) (fs : FS)
    (h : ¬ ((splitext (basename f)).1 = "report" ∧
        (splitext (basename f)).2 = ".html")) :
    processFile today f fs = .ok fs := by
  unfold processFile
  split
  · rfl
  · rw [if_pos h]

theorem run_nonwatched (today : String) (files : List FPath) (fs : FS)
    (h : ∀ f ∈ files, ¬ ((splitext (basename f)).1 = "report" ∧
        (splitext (basename f)).2 = ".html")) :
    run today files fs = .ok fs := by
  induction files generalizing fs with
  | nil => rfl
  | cons f rest ih =>
    show (processFile today f fs).bind (run today rest) = .ok fs
    rw [processFile_nonwatched today f fs (h f (List.mem_cons_self f rest))]
    exact ih fs (fun g hg => h g (List.mem_cons_of_mem f hg))

theorem run_append (today : String) (l1 l2 : List FPath) (fs : FS) :
    run today (l1 ++ l2) fs = (run today l1 fs).bind (run today l2) := by
  induction l1 generalizing fs with
  | nil => rfl
  | cons f r ih =>
    show (processFile today f fs).bind (run today (r ++ l2)) =
      ((processFile today f fs).bind (run today r)).bind (run today l2)
    cases processFile today f fs with
    | ok s =>
      simp only [Res.bind]
      exact ih s
    | err e s => rfl

theorem FS.childNames_nodup (fs : FS) (p : FPath) : (fs.childNames p).Nodup :=
  List.nodup_dedup _

theorem FS.mem_childNames_of_lookup {fs : FS} {p : FPath} {x : Name}
    {e : Entry} (h : fs.lookup (p ++ [x]) = some e) : x ∈ fs.childNames p := by
  have hmem := FS.lookup_mem h
  unfold FS.childNames
  rw [List.mem_dedup, List.mem_filterMap]
  refine ⟨(p ++ [x], e), hmem, ?_⟩
  rw [if_pos ?_]
  · show ((p ++ [x]).drop p.length).head? = some x
    rw [List.drop_left]
    rfl
  · refine (Bool.and_eq_true _ _).mpr ⟨?_, ?_⟩
    · exact decide_eq_true (List.prefix_append p [x])
    · refine decide_eq_true ?_
      intro hc
      have := congrArg List.length hc
      simp at this

/-- The publish loop copies a store-committed regular file to its
name-correlated location under `docs/archive/`, and later items (all of
different names) leave it in place. -/
theorem publishItems_deliver (n : Name) (c : String) (items : List Name) :
    ∀ (fs s : FS), n ∈ items → items.Nodup →
      fs.lookup ["archived_reports", n] = some (.file c) →
      fs.isdir ["docs", "archive", n] = false →
      publishItems items fs = .ok s →
      s.lookup ["docs", "archive", n] = some (.file c) := by
  induction items with
  | nil => intro fs s hn; cases hn
  | cons i is ih =>
    intro fs s hn hnd hsv hpv hok
    obtain ⟨m1, hm1, hrest⟩ :=
      Res.bind_eq_ok (show (publishItem i fs).bind (publishItems is) = .ok s
        from hok)
    by_cases hin : i = n
    · subst hin
      have hisf : fs.isfile ["archived_reports", i] = true :=
        FS.isfile_iff.mpr ⟨c, hsv⟩
      simp only [publishItem] at hm1
      rw [if_pos hisf] at hm1
      simp only [FS.copy] at hm1
      rw [if_neg (by rw [hpv]; simp)] at hm1
      rw [show fs.copyfile ["archived_reports", i] ["docs", "archive", i] =
          fs.writeFile ["docs", "archive", i] c from by
        unfold FS.copyfile
        rw [hsv]] at hm1
      have hl1 : m1.lookup ["docs", "archive", i] = some (.file c) :=
        FS.writeFile_ok_lookup hm1
      have hnotin : i ∉ is := (List.nodup_cons.mp hnd).1
      have hpres := publishItems_lookup_pres is m1 ["docs", "archive", i]
        (by
          intro k hk hc
          exact hnotin ((publish_pair_prefix_iff.mp hc) ▸ hk))
      rw [hrest] at hpres
      exact hpres.trans hl1
    · have hn2 : n ∈ is := by
        rcases List.mem_cons.mp hn with hc | hc
        · exact absurd hc.symm hin
        · exact hc
      have hsv2 : m1.lookup ["archived_reports", n] = some (.file c) := by
        have hh := publishItem_lookup_pres i fs ["archived_reports", n]
          (not_cons_prefix_cons (by decide))
        rw [hm1] at hh
        exact hh.trans hsv
      have hpv2 : m1.isdir ["docs", "archive", n] = false := by
        have hh := publishItem_isdir_false i fs ["docs", "archive", n]
          (fun hc => hin (publish_pair_prefix_iff.mp hc).symm)
          (fun hc => hin (publish_pair_prefix_iff.mp hc))
          hpv
        rw [hm1] at hh
        exact hh
      exact ih m1 s hn2 (List.nodup_cons.mp hnd).2 hsv2 hpv2 hrest

/-! ## The pipeline at the watched path, reshaped for decomposition -/

theorem preCommitPhase_docs (today : String) (fs : FS) :
    preCommitPhase today ["docs", "report.html"] fs =
      (renamePhase today ["docs", "report.html"] fs).bind fun s =>
        s.copyfile ["docs", "report_" ++ today ++ ".html"]
          ["docs", "report-latest.html"] := rfl

theorem preQmdPhase_docs (today : String) (fs : FS) :
    preQmdPhase today ["docs", "report.html"] fs =
      (preCommitPhase today ["docs", "report.html"] fs).bind fun s =>
        (stepCommit ["docs", "report_" ++ today ++ ".html"] s).bind fun s =>
          (stepCharts s).bind fun s =>
            (stepSiteLibs s).bind fun s =>
              stepResources (newResDirOf today ["docs", "report.html"] fs) s :=
  rfl

theorem processFile_docs (today : String) (fs : FS)
    (h1 : fs.pathExists ["docs", "report.html"] = true) :
    processFile today ["docs", "report.html"] fs =
      (preQmdPhase today ["docs", "report.html"] fs).bind fun s =>
        (stepQmd today s).bind fun s =>
          (stepIndex s).bind fun s => stepPublish s := by
  unfold processFile
  rw [if_neg (by rw [h1]; simp)]
  rfl

set_option maxRecDepth 8000 in
/-- C2 counterexample to the claim as stated: the claim quantifies over every
run whose trigger lists `docs/report.html` with `docs/report_files/` present,
but on a state carrying a leftover `docs/report_2024-06-01_files/` from an
earlier same-day run the run completes while `shutil.move` nests the fresh
resources *inside* the leftover directory: after the run,
`docs/report_2024-06-01_files/plot.png` still holds the stale content and the
original resource contents sit nested one level deeper — so the relocated
resource directory does NOT hold the original resource contents. -/
theorem C2_counterexample :
    let fs : FS := ⟨[(["docs", "report.html"], .file "HTML2"),
        (["docs", "report_files", "plot.png"], .file "PLOT2"),
        (["docs", "report_2024-06-01.html"], .file "HTML"),
        (["docs", "report_2024-06-01_files", "plot.png"], .file "PLOT"),
        (["report.qmd"], .file "QMD"),
        (["archive"], .dir)]⟩
    let r := run "2024-06-01" [["docs", "report.html"]] fs
    fs.isfile ["docs", "report.html"] = true ∧
    fs.isdir ["docs", "report_files"] = true ∧
    fs.lookup ["docs", "report_files", "plot.png"] = some (.file "PLOT2") ∧
    r.isOk = true ∧
    r.stateOf.lookup ["docs", "report_2024-06-01_files", "plot.png"] =
      some (.file "PLOT") ∧
    r.stateOf.lookup ["docs", "report_2024-06-01_files", "report_files",
      "plot.png"] = some (.file "PLOT2") := by
  decide

/-- C2 (amended): End-to-end postcondition.  For every run whose trigger input
lists `docs/report.html` (existing on disk, contents `c`) with
`docs/report_files/` present, where `docs/report.html` is the only listed path
passing the watched-artifact test, and provided the versioned destination
names are fresh — nothing occupies `docs/report_<version>.html` or
`docs/report_<version>_files/`, and no directory occupies
`archived_reports/report_<version>.html` or
`docs/archive/report_<version>.html` (the amendment forced by
`C2_counterexample`) — if the run completes, then afterwards
`docs/report_<version>.html` holds `c` (the versioned file remains in `docs`:
the store commit copies, never moves), `docs/report_<version>_files/` exists
with exactly the original resource contents, `docs/report-latest.html` is
byte-identical to the versioned file, `archived_reports/report_<version>.html`
holds `c`, and `docs/archive/report_<version>.html` holds `c` after
synchronization. -/
theorem C2_postcondition (today c : String) (pre post files : List FPath)
    (fs fs' : FS)
    (hfiles : files = pre ++ ["docs", "report.html"] :: post)
    (hpre : ∀ g ∈ pre, ¬ ((splitext (basename g)).1 = "report" ∧
        (splitext (basename g)).2 = ".html"))
    (hpost : ∀ g ∈ post, ¬ ((splitext (basename g)).1 = "report" ∧
        (splitext (basename g)).2 = ".html"))
    (hfile : fs.lookup ["docs", "report.html"] = some (.file c))
    (hres : fs.isdir ["docs", "report_files"] = true)
    (hfresh1 : fs.pathExists ["docs", "report_" ++ today ++ ".html"] = false)
    (hfresh2 : fs.pathExists ["docs", "report_" ++ today ++ "_files"] = false)
    (hfresh3 : fs.isdir ["archived_reports", "report_" ++ today ++ ".html"] =
      false)
    (hfresh4 : fs.isdir ["docs", "archive", "report_" ++ today ++ ".html"] =
      false)
    (hrun : run today files fs = .ok fs') :
    fs'.lookup ["docs", "report_" ++ today ++ ".html"] = some (.file c) ∧
    fs'.isdir ["docs", "report_" ++ today ++ "_files"] = true ∧
    (∀ u, fs'.lookup (["docs", "report_" ++ today ++ "_files"] ++ u) =
      fs.lookup (["docs", "report_files"] ++ u)) ∧
    fs'.lookup ["docs", "report-latest.html"] = some (.file c) ∧
    fs'.lookup ["archived_reports", "report_" ++ today ++ ".html"] =
      some (.file c) ∧
    fs'.lookup ["docs", "archive", "report_" ++ today ++ ".html"] =
      some (.file c) := by
  subst hfiles
  rw [run_append today pre (["docs", "report.html"] :: post) fs,
    run_nonwatched today pre fs hpre] at hrun
  have hrun2 : (processFile today ["docs", "report.html"] fs).bind
      (run today post) = .ok fs' := hrun
  obtain ⟨m, hm, hrest⟩ := Res.bind_eq_ok hrun2
  rw [run_nonwatched today post m hpost] at hrest
  injection hrest with hmeq
  subst hmeq
  have hisf0 : fs.isfile ["docs", "report.html"] = true :=
    FS.isfile_iff.mpr ⟨c, hfile⟩
  have hpe : fs.pathExists ["docs", "report.html"] = true :=
    FS.pathExists_of_isfile hisf0
  rw [processFile_docs today fs hpe] at hm
  obtain ⟨s8, h8, hm2⟩ := Res.bind_eq_ok hm
  obtain ⟨s9, h9, hm3⟩ := Res.bind_eq_ok hm2
  obtain ⟨s10, h10, hm4⟩ := Res.bind_eq_ok hm3
  rw [preQmdPhase_docs] at h8
  obtain ⟨s3, h3, h8b⟩ := Res.bind_eq_ok h8
  obtain ⟨s4, h4, h8c⟩ := Res.bind_eq_ok h8b
  obtain ⟨s5, h5, h8d⟩ := Res.bind_eq_ok h8c
  obtain ⟨s6, h6, h8e⟩ := Res.bind_eq_ok h8d
  rw [preCommitPhase_docs] at h3
  obtain ⟨s2, h2, h3b⟩ := Res.bind_eq_ok h3
  have eNVL : ("report_" ++ today ++ ".html" : String) ≠ "report-latest.html" :=
    report_v_ne_latest today
  have eNVA : ("report_" ++ today ++ ".html" : String) ≠ "archive" :=
    head_r_ne_archive _ rfl
  have eNFA : ("report_" ++ today ++ "_files" : String) ≠ "archive" :=
    head_r_ne_archive _ rfl
  have eLA : ("report-latest.html" : String) ≠ "archive" := by decide
  have eNVNF : ("report_" ++ today ++ ".html" : String) ≠
      "report_" ++ today ++ "_files" :=
    report_ts_ne today ".html" "_files" (by decide)
  have eLNF : ("report-latest.html" : String) ≠
      "report_" ++ today ++ "_files" :=
    html_ne_report_t_files (by decide) today
  have eNVC : ("report_" ++ today ++ ".html" : String) ≠ "charts" :=
    html_ne_charts (report_vhtml_endsWith today)
  have eNVS : ("report_" ++ today ++ ".html" : String) ≠ "site_libs" :=
    html_ne_site_libs (report_vhtml_endsWith today)
  obtain ⟨hX0, hNRD0, hVF0, hGone0, hV0⟩ :=
    renamePhase_fresh today ["docs"] fs c hfile hres hfresh1 hfresh2
  have hXok : renamePhase today ["docs", "report.html"] fs =
      .ok ((fs.rename ["docs", "report.html"]
          ["docs", "report_" ++ today ++ ".html"]).rename
        ["docs", "report_files"] ["docs", "report_" ++ today ++ "_files"]) :=
    hX0
  have hNRD : newResDirOf today ["docs", "report.html"] fs =
      some ["docs", "report_" ++ today ++ "_files"] := hNRD0
  have hVF1 : ∀ u, ((renamePhase today ["docs", "report.html"] fs).stateOf).lookup
      (["docs", "report_" ++ today ++ "_files"] ++ u) =
      fs.lookup (["docs", "report_files"] ++ u) := hVF0
  have hV1 : ((renamePhase today ["docs", "report.html"] fs).stateOf).lookup
      ["docs", "report_" ++ today ++ ".html"] = some (.file c) := hV0
  rw [hXok] at h2
  injection h2 with h2e
  have hV_s2 : s2.lookup ["docs", "report_" ++ today ++ ".html"] =
      some (.file c) := by
    rw [← h2e]
    have hh := hV1
    rw [hXok] at hh
    exact hh
  have hVF_s2 : ∀ u, s2.lookup (["docs", "report_" ++ today ++ "_files"] ++ u) =
      fs.lookup (["docs", "report_files"] ++ u) := by
    intro u
    rw [← h2e]
    have hh := hVF1 u
    rw [hXok] at hh
    exact hh
  have hDsv_s2 : s2.isdir ["archived_reports", "report_" ++ today ++ ".html"] =
      false := by
    rw [← h2e]
    refine FS.isdir_false_rename _ _ _ _ ?_ ?_
      (FS.isdir_false_rename _ _ _ _ ?_ ?_ hfresh3)
    · exact not_cons_prefix_cons (by decide)
    · exact not_cons_prefix_cons (by decide)
    · exact not_cons_prefix_cons (by decide)
    · exact not_cons_prefix_cons (by decide)
  have hDpv_s2 : s2.isdir ["docs", "archive", "report_" ++ today ++ ".html"] =
      false := by
    rw [← h2e]
    refine FS.isdir_false_rename _ _ _ _ ?_ ?_
      (FS.isdir_false_rename _ _ _ _ ?_ ?_ hfresh4)
    · exact cons_cons_prefix_ne eNFA.symm
    · exact cons_cons_prefix_ne eNFA
    · exact cons_cons_prefix_ne eNVA.symm
    · exact cons_cons_prefix_ne eNVA
  have hcf1 : s2.copyfile ["docs", "report_" ++ today ++ ".html"]
      ["docs", "report-latest.html"] =
      s2.writeFile ["docs", "report-latest.html"] c := by
    unfold FS.copyfile
    rw [hV_s2]
  rw [hcf1] at h3b
  have hL_s3 : s3.lookup ["docs", "report-latest.html"] = some (.file c) :=
    FS.writeFile_ok_lookup h3b
  have hst3 : (s2.writeFile ["docs", "report-latest.html"] c).stateOf = s3 := by
    rw [h3b]
    rfl
  have hV_s3 : s3.lookup ["docs", "report_" ++ today ++ ".html"] =
      some (.file c) := by
    have hh := FS.lookup_writeFile_stateOf s2 ["docs", "report-latest.html"] c
      ["docs", "report_" ++ today ++ ".html"] (cons_cons_ne eNVL.symm)
    rw [hst3] at hh
    exact hh.trans hV_s2
  have hVF_s3 : ∀ u, s3.lookup (["docs", "report_" ++ today ++ "_files"] ++ u) =
      fs.lookup (["docs", "report_files"] ++ u) := by
    intro u
    have hh := FS.lookup_writeFile_stateOf s2 ["docs", "report-latest.html"] c
      (["docs", "report_" ++ today ++ "_files"] ++ u) (cons_cons_ne eLNF)
    rw [hst3] at hh
    exact hh.trans (hVF_s2 u)
  have hDsv_s3 : s3.isdir ["archived_reports", "report_" ++ today ++ ".html"] =
      false := by
    have hh := FS.isdir_false_writeFile s2 ["docs", "report-latest.html"] c
      ["archived_reports", "report_" ++ today ++ ".html"]
      (Or.inr (not_cons_prefix_cons (by decide))) hDsv_s2
    rw [hst3] at hh
    exact hh
  have hDpv_s3 : s3.isdir ["docs", "archive", "report_" ++ today ++ ".html"] =
      false := by
    have hh := FS.isdir_false_writeFile s2 ["docs", "report-latest.html"] c
      ["docs", "archive", "report_" ++ today ++ ".html"]
      (Or.inr (cons_cons_prefix_ne eLA.symm)) hDpv_s2
    rw [hst3] at hh
    exact hh
  unfold stepCommit at h4
  obtain ⟨sa, ha1, ha2⟩ := Res.bind_eq_ok h4
  have hsta : (s3.makedirs ["archived_reports"]).stateOf = sa := by
    rw [ha1]
    rfl
  have hV_sa : sa.lookup ["docs", "report_" ++ today ++ ".html"] =
      some (.file c) := by
    have hh := FS.lookup_makedirs_stateOf s3 ["archived_reports"]
      ["docs", "report_" ++ today ++ ".html"] (cons_ne_cons (by decide))
    rw [hsta] at hh
    exact hh.trans hV_s3
  have hL_sa : sa.lookup ["docs", "report-latest.html"] = some (.file c) := by
    have hh := FS.lookup_makedirs_stateOf s3 ["archived_reports"]
      ["docs", "report-latest.html"] (cons_ne_cons (by decide))
    rw [hsta] at hh
    exact hh.trans hL_s3
  have hVF_sa : ∀ u, sa.lookup (["docs", "report_" ++ today ++ "_files"] ++ u) =
      fs.lookup (["docs", "report_files"] ++ u) := by
    intro u
    have hh := FS.lookup_makedirs_stateOf s3 ["archived_reports"]
      (["docs", "report_" ++ today ++ "_files"] ++ u) (cons_ne_cons (by decide))
    rw [hsta] at hh
    exact hh.trans (hVF_s3 u)
  have hDsv_sa : sa.isdir ["archived_reports", "report_" ++ today ++ ".html"] =
      false := by
    have hh := FS.isdir_false_makedirs s3 ["archived_reports"]
      ["archived_reports", "report_" ++ today ++ ".html"]
      (by refine not_prefix_of_longer ?_; simp) hDsv_s3
    rw [hsta] at hh
    exact hh
  have hDpv_sa : sa.isdir ["docs", "archive", "report_" ++ today ++ ".html"] =
      false := by
    have hh := FS.isdir_false_makedirs s3 ["archived_reports"]
      ["docs", "archive", "report_" ++ today ++ ".html"]
      (not_cons_prefix_cons (by decide)) hDpv_s3
    rw [hsta] at hh
    exact hh
  rw [show basename ["docs", "report_" ++ today ++ ".html"] =
      ("report_" ++ today ++ ".html" : String) from rfl] at ha2
  simp only [FS.copy] at ha2
  rw [if_neg (by rw [hDsv_sa]; simp)] at ha2
  have hcf2 : sa.copyfile ["docs", "report_" ++ today ++ ".html"]
      ["archived_reports", "report_" ++ today ++ ".html"] =
      sa.writeFile ["archived_reports", "report_" ++ today ++ ".html"] c := by
    unfold FS.copyfile
    rw [hV_sa]
  rw [hcf2] at ha2
  have hS_s4 : s4.lookup ["archived_reports", "report_" ++ today ++ ".html"] =
      some (.file c) := FS.writeFile_ok_lookup ha2
  have hst4 : (sa.writeFile
      ["archived_reports", "report_" ++ today ++ ".html"] c).stateOf = s4 := by
    rw [ha2]
    rfl
  have hV_s4 : s4.lookup ["docs", "report_" ++ today ++ ".html"] =
      some (.file c) := by
    have hh := FS.lookup_writeFile_stateOf sa
      ["archived_reports", "report_" ++ today ++ ".html"] c
      ["docs", "report_" ++ today ++ ".html"] (cons_ne_cons (by decide))
    rw [hst4] at hh
    exact hh.trans hV_sa
  have hL_s4 : s4.lookup ["docs", "report-latest.html"] = some (.file c) := by
    have hh := FS.lookup_writeFile_stateOf sa
      ["archived_reports", "report_" ++ today ++ ".html"] c
      ["docs", "report-latest.html"] (cons_ne_cons (by decide))
    rw [hst4] at hh
    exact hh.trans hL_sa
  have hVF_s4 : ∀ u, s4.lookup (["docs", "report_" ++ today ++ "_files"] ++ u) =
      fs.lookup (["docs", "report_files"] ++ u) := by
    intro u
    have hh := FS.lookup_writeFile_stateOf sa
      ["archived_reports", "report_" ++ today ++ ".html"] c
      (["docs", "report_" ++ today ++ "_files"] ++ u) (cons_ne_cons (by decide))
    rw [hst4] at hh
    exact hh.trans (hVF_sa u)
  have hDpv_s4 : s4.isdir ["docs", "archive", "report_" ++ today ++ ".html"] =
      false := by
    have hh := FS.isdir_false_writeFile sa
      ["archived_reports", "report_" ++ today ++ ".html"] c
      ["docs", "archive", "report_" ++ today ++ ".html"]
      (Or.inr (not_cons_prefix_cons (by decide))) hDpv_sa
    rw [hst4] at hh
    exact hh
  rw [hNRD] at h8e
  have hchain : ∀ q : FPath,
      (¬ (["archived_reports", "charts"] : FPath) <+: q) →
      (¬ (["archived_reports", "site_libs"] : FPath) <+: q) →
      (¬ (["archived_reports", "report_" ++ today ++ "_files"] : FPath) <+: q) →
      ((["archive_qmd"] : FPath) ≠ q) →
      ((["archive_qmd", "report_" ++ today ++ ".qmd"] : FPath) ≠ q) →
      ((["archive", "index.qmd"] : FPath) ≠ q) →
      s10.lookup q = s4.lookup q := by
    intro q hqc hqs hqr hq1 hq2 hqi
    have e5 : s5.lookup q = s4.lookup q := by
      have hh := stepCharts_lookup_pres s4 q hqc
      rw [h5] at hh
      exact hh
    have e6 : s6.lookup q = s5.lookup q := by
      have hh := stepSiteLibs_lookup_pres s5 q hqs
      rw [h6] at hh
      exact hh
    have e8 : s8.lookup q = s6.lookup q := by
      have hh := stepResources_lookup_pres
        (some ["docs", "report_" ++ today ++ "_files"]) s6 q
        (by
          intro d hd
          injection hd with hd2
          rw [← hd2]
          exact hqr)
      rw [h8e] at hh
      exact hh
    have e9 : s9.lookup q = s8.lookup q := by
      have hh := stepQmd_lookup_pres today s8 q hq1 hq2
      rw [h9] at hh
      exact hh
    have e10 : s10.lookup q = s9.lookup q := by
      have hh := stepIndex_lookup_pres s9 q hqi
      rw [h10] at hh
      exact hh
    rw [e10, e9, e8, e6, e5]
  have hV_s10 : s10.lookup ["docs", "report_" ++ today ++ ".html"] =
      some (.file c) :=
    (hchain ["docs", "report_" ++ today ++ ".html"]
      (not_cons_prefix_cons (by decide)) (not_cons_prefix_cons (by decide))
      (not_cons_prefix_cons (by decide)) (cons_ne_cons (by decide))
      (cons_ne_cons (by decide)) (cons_ne_cons (by decide))).trans hV_s4
  have hL_s10 : s10.lookup ["docs", "report-latest.html"] = some (.file c) :=
    (hchain ["docs", "report-latest.html"]
      (not_cons_prefix_cons (by decide)) (not_cons_prefix_cons (by decide))
      (not_cons_prefix_cons (by decide)) (cons_ne_cons (by decide))
      (cons_ne_cons (by decide)) (cons_ne_cons (by decide))).trans hL_s4
  have hS_s10 : s10.lookup ["archived_reports", "report_" ++ today ++ ".html"] =
      some (.file c) :=
    (hchain ["archived_reports", "report_" ++ today ++ ".html"]
      (cons_cons_prefix_ne eNVC.symm) (cons_cons_prefix_ne eNVS.symm)
      (cons_cons_prefix_ne eNVNF.symm) (cons_ne_cons (by decide))
      (cons_ne_cons (by decide)) (cons_ne_cons (by decide))).trans hS_s4
  have hVF_s10 : ∀ u, s10.lookup (["docs", "report_" ++ today ++ "_files"] ++ u) =
      fs.lookup (["docs", "report_files"] ++ u) := by
    intro u
    exact (hchain (["docs", "report_" ++ today ++ "_files"] ++ u)
      (not_cons_prefix_cons (by decide)) (not_cons_prefix_cons (by decide))
      (not_cons_prefix_cons (by decide)) (cons_ne_cons (by decide))
      (cons_ne_cons (by decide)) (cons_ne_cons (by decide))).trans (hVF_s4 u)
  have hDpv_s10 : s10.isdir ["docs", "archive", "report_" ++ today ++ ".html"] =
      false := by
    have d5 : s5.isdir ["docs", "archive", "report_" ++ today ++ ".html"] =
        false := by
      have hh := stepCharts_isdir_false s4
        ["docs", "archive", "report_" ++ today ++ ".html"]
        (not_cons_prefix_cons (by decide)) (not_cons_prefix_cons (by decide))
        hDpv_s4
      rw [h5] at hh
      exact hh
    have d6 : s6.isdir ["docs", "archive", "report_" ++ today ++ ".html"] =
        false := by
      have hh := stepSiteLibs_isdir_false s5
        ["docs", "archive", "report_" ++ today ++ ".html"]
        (not_cons_prefix_cons (by decide)) (not_cons_prefix_cons (by decide))
        d5
      rw [h6] at hh
      exact hh
    have d8 : s8.isdir ["docs", "archive", "report_" ++ today ++ ".html"] =
        false := by
      have hh := stepResources_isdir_false
        (some ["docs", "report_" ++ today ++ "_files"]) s6
        ["docs", "archive", "report_" ++ today ++ ".html"]
        (by
          intro d hd
          injection hd with hd2
          rw [← hd2]
          exact ⟨not_cons_prefix_cons (by decide),
            not_cons_prefix_cons (by decide)⟩)
        d6
      rw [h8e] at hh
      exact hh
    have d9 : s9.isdir ["docs", "archive", "report_" ++ today ++ ".html"] =
        false := by
      have hh := stepQmd_isdir_false today s8
        ["docs", "archive", "report_" ++ today ++ ".html"]
        (not_cons_prefix_cons (by decide)) (not_cons_prefix_cons (by decide))
        d8
      rw [h9] at hh
      exact hh
    have hh := stepIndex_isdir_false s9
      ["docs", "archive", "report_" ++ today ++ ".html"]
      (not_cons_prefix_cons (by decide)) d9
    rw [h10] at hh
    exact hh
  unfold stepPublish at hm4
  obtain ⟨sp, hp1, hp2⟩ := Res.bind_eq_ok hm4
  have hstp : (s10.makedirs ["docs", "archive"]).stateOf = sp := by
    rw [hp1]
    rfl
  have hV_sp : sp.lookup ["docs", "report_" ++ today ++ ".html"] =
      some (.file c) := by
    have hh := FS.lookup_makedirs_stateOf s10 ["docs", "archive"]
      ["docs", "report_" ++ today ++ ".html"] (cons_cons_ne eNVA.symm)
    rw [hstp] at hh
    exact hh.trans hV_s10
  have hL_sp : sp.lookup ["docs", "report-latest.html"] = some (.file c) := by
    have hh := FS.lookup_makedirs_stateOf s10 ["docs", "archive"]
      ["docs", "report-latest.html"] (cons_cons_ne eLA.symm)
    rw [hstp] at hh
    exact hh.trans hL_s10
  have hS_sp : sp.lookup ["archived_reports", "report_" ++ today ++ ".html"] =
      some (.file c) := by
    have hh := FS.lookup_makedirs_stateOf s10 ["docs", "archive"]
      ["archived_reports", "report_" ++ today ++ ".html"] (cons_ne_cons (by decide))
    rw [hstp] at hh
    exact hh.trans hS_s10
  have hVF_sp : ∀ u, sp.lookup (["docs", "report_" ++ today ++ "_files"] ++ u) =
      fs.lookup (["docs", "report_files"] ++ u) := by
    intro u
    have hh := FS.lookup_makedirs_stateOf s10 ["docs", "archive"]
      (["docs", "report_" ++ today ++ "_files"] ++ u) (cons_cons_ne eNFA.symm)
    rw [hstp] at hh
    exact hh.trans (hVF_s10 u)
  have hDpv_sp : sp.isdir ["docs", "archive", "report_" ++ today ++ ".html"] =
      false := by
    have hh := FS.isdir_false_makedirs s10 ["docs", "archive"]
      ["docs", "archive", "report_" ++ today ++ ".html"]
      (by refine not_prefix_of_longer ?_; simp) hDpv_s10
    rw [hstp] at hh
    exact hh
  have hroot : sp.isdir ["archived_reports"] = true := by
    refine FS.isdir_iff.mpr (Or.inr
      ⟨(["archived_reports", "report_" ++ today ++ ".html"], .file c),
        FS.lookup_mem hS_sp, ?_, ?_⟩)
    · intro hc
      have := congrArg List.length hc
      simp at this
    · exact List.cons_prefix_cons.mpr ⟨rfl, List.nil_prefix⟩
  rw [if_pos (FS.pathExists_of_isdir hroot)] at hp2
  rw [show sp.listdir ["archived_reports"] =
      .ok (sp.childNames ["archived_reports"]) from by
    unfold FS.listdir
    rw [if_pos hroot]] at hp2
  have hp3 : publishItems (sp.childNames ["archived_reports"]) sp = .ok m := hp2
  have hmemNV := @FS.mem_childNames_of_lookup sp ["archived_reports"]
    ("report_" ++ today ++ ".html") (.file c) hS_sp
  have hPV_m : m.lookup ["docs", "archive", "report_" ++ today ++ ".html"] =
      some (.file c) :=
    publishItems_deliver ("report_" ++ today ++ ".html") c
      (sp.childNames ["archived_reports"]) sp m hmemNV
      (FS.childNames_nodup sp ["archived_reports"]) hS_sp hDpv_sp hp3
  have hfin : ∀ q : FPath,
      (∀ k, ¬ (["docs", "archive", k] : FPath) <+: q) →
      m.lookup q = sp.lookup q := by
    intro q hq
    have hh := publishItems_lookup_pres (sp.childNames ["archived_reports"]) sp q
      (fun k _ => hq k)
    rw [hp3] at hh
    exact hh
  have hV_m : m.lookup ["docs", "report_" ++ today ++ ".html"] =
      some (.file c) :=
    (hfin ["docs", "report_" ++ today ++ ".html"]
      (fun k => by refine not_prefix_of_longer ?_; simp)).trans hV_sp
  have hL_m : m.lookup ["docs", "report-latest.html"] = some (.file c) :=
    (hfin ["docs", "report-latest.html"]
      (fun k => by refine not_prefix_of_longer ?_; simp)).trans hL_sp
  have hS_m : m.lookup ["archived_reports", "report_" ++ today ++ ".html"] =
      some (.file c) :=
    (hfin ["archived_reports", "report_" ++ today ++ ".html"]
      (fun k => not_cons_prefix_cons (by decide))).trans hS_sp
  have hVF_m : ∀ u, m.lookup (["docs", "report_" ++ today ++ "_files"] ++ u) =
      fs.lookup (["docs", "report_files"] ++ u) := by
    intro u
    exact (hfin (["docs", "report_" ++ today ++ "_files"] ++ u)
      (fun k => cons_cons_prefix_ne eNFA.symm)).trans (hVF_sp u)
  have hdirVF_m : m.isdir ["docs", "report_" ++ today ++ "_files"] = true := by
    rcases FS.isdir_iff.mp hres with hmark | ⟨x, hx, hxne, hxpre⟩
    · have hh := hVF_m []
      rw [List.append_nil, List.append_nil] at hh
      exact FS.isdir_iff.mpr (Or.inl (by rw [hh]; exact hmark))
    · obtain ⟨u, hu⟩ := hxpre
      have hune : u ≠ [] := by
        rintro rfl
        rw [List.append_nil] at hu
        exact hxne hu
      obtain ⟨e, he⟩ := FS.lookup_isSome_of_mem hx
      rw [← hu] at he
      have hmu : m.lookup (["docs", "report_" ++ today ++ "_files"] ++ u) =
          some e := by
        rw [hVF_m u]
        exact he
      refine FS.isdir_iff.mpr (Or.inr
        ⟨(["docs", "report_" ++ today ++ "_files"] ++ u, e),
          FS.lookup_mem hmu, ?_, List.prefix_append _ _⟩)
      intro hc
      apply hune
      have hc2 := hc.symm
      rwa [List.append_right_eq_self] at hc2
  exact ⟨hV_m, hdirVF_m, hVF_m, hL_m, hS_m, hPV_m⟩

set_option maxRecDepth 8000 in
/-- Witness for the amended C2 on the spec's scenario state: the single-entry
trigger list, fresh versioned destination names, and a run that completes. -/
theorem C2_postcondition_witness :
    let fs : FS := ⟨[(["docs", "report.html"], .file "HTML"),
        (["docs", "report_files", "plot.png"], .file "PLOT"),
        (["report.qmd"], .file "QMD"),
        (["archive"], .dir)]⟩
    let m : FS := (run "2024-06-01" [["docs", "report.html"]] fs).stateOf
    m.lookup ["docs", "report_" ++ "2024-06-01" ++ ".html"] =
      some (.file "HTML") ∧
    m.isdir ["docs", "report_" ++ "2024-06-01" ++ "_files"] = true ∧
    (∀ u, m.lookup (["docs", "report_" ++ "2024-06-01" ++ "_files"] ++ u) =
      fs.lookup (["docs", "report_files"] ++ u)) ∧
    m.lookup ["docs", "report-latest.html"] = some (.file "HTML") ∧
    m.lookup ["archived_reports", "report_" ++ "2024-06-01" ++ ".html"] =
      some (.file "HTML") ∧
    m.lookup ["docs", "archive", "report_" ++ "2024-06-01" ++ ".html"] =
      some (.file "HTML") := by
  exact C2_postcondition "2024-06-01" "HTML" [] [] [["docs", "report.html"]]
    ⟨[(["docs", "report.html"], .file "HTML"),
      (["docs", "report_files", "plot.png"], .file "PLOT"),
      (["report.qmd"], .file "QMD"),
      (["archive"], .dir)]⟩
    ((run "2024-06-01" [["docs", "report.html"]]
      ⟨[(["docs", "report.html"], .file "HTML"),
        (["docs", "report_files", "plot.png"], .file "PLOT"),
        (["report.qmd"], .file "QMD"),
        (["archive"], .dir)]⟩).stateOf)
    rfl (by simp) (by simp) (by decide) (by decide) (by decide) (by decide)
    (by decide) (by decide) (by decide)
